import Mathlib

/-!
Shallow embedding of the Canadian Tire liquidation scraper
(`scraper_ct.js`, `lib/ctProductKey.js`, `canadian_tire_scraper.mjs`).

JavaScript values are modelled as follows: nullable strings become
`Option String` (with `none` for `null`/`undefined`), numbers become exact
rationals `ℚ`, and JS truthiness of a string value (`null`, `undefined` and
`""` are falsy) is made explicit through `truthyS`.  Regular expressions used
by the code are compiled by hand into deterministic scanning functions; the
determinism arguments (why greedy matching with backtracking collapses to
`dropWhile`/`take`) are noted at each definition.
-/

namespace CTScraper

/-- Character class of the JS regex `\s` (whitespace), restricted to the code
points the scraper can actually meet; includes the no-break space ` `
that price strings contain. -/
def isJsSpace (c : Char) : Bool :=
  c = ' ' || c = '\t' || c = '\n' || c = '\r' ||
  c = (Char.ofNat 0x0b) || c = (Char.ofNat 0x0c) ||
  c = (Char.ofNat 0xa0) || c = (Char.ofNat 0x2028) ||
  c = (Char.ofNat 0x2029) || c = (Char.ofNat 0xfeff) ||
  (0x2000 ≤ c.toNat && c.toNat ≤ 0x200a) ||
  c = (Char.ofNat 0x1680) || c = (Char.ofNat 0x202f) ||
  c = (Char.ofNat 0x205f) || c = (Char.ofNat 0x3000)

/-- Character class of the JS regex `\w` (word character): ASCII letters,
digits and underscore. -/
def isWordChar (c : Char) : Bool :=
  c.isAlphanum || c = '_'

/-- JS `String.prototype.trim`. -/
def jsTrim (s : String) : String :=
  String.mk (((s.data.dropWhile isJsSpace).reverse.dropWhile isJsSpace).reverse)

/-- Truthiness projection for JS string values: `null`/`undefined` (`none`)
and the empty string are falsy; a non-empty string is returned unchanged. -/
def truthyS : Option String → Option String
  | none => none
  | some s => if s = "" then none else some s

/-- JS nullish coalescing `a ?? b` on nullable strings. -/
def nullishS (a b : Option String) : Option String :=
  match a with
  | some s => some s
  | none => b

/-- JS logical or `a || b` on nullable strings: the first operand if truthy,
otherwise the second operand unchanged. -/
def jsOrS (a b : Option String) : Option String :=
  match truthyS a with
  | some s => some s
  | none => b

/-- Numeric value of a list of decimal digit characters, most significant
first (the JS semantics of `Number`/`parseInt` on a digit run). -/
def digitsToNat (l : List Char) : ℕ :=
  l.foldl (fun n c => 10 * n + (c.toNat - 48)) 0

/-! ### lib/ctProductKey.js -/

/-- Consumes exactly `n` decimal digits from the front of the list, returning
the digits and the remainder (the regex atom `\d{n}`). -/
def takeDigits : ℕ → List Char → Option (List Char × List Char)
  | 0, l => some ([], l)
  | _ + 1, [] => none
  | n + 1, c :: l =>
    if c.isDigit then
      match takeDigits n l with
      | some (ds, rest) => some (c :: ds, rest)
      | none => none
    else none

/-- Word-boundary test `\b` placed right after a digit: holds when the rest
of the input is empty or starts with a non-word character. -/
def boundaryAfterWord : List Char → Bool
  | [] => true
  | c :: _ => !(isWordChar c)

/-- Attempt of the regex `(\d{3})\D*(\d{4})\D*(\d)\b` anchored at the head of
the input, returning the three digit groups concatenated.  `\D*` followed by
a digit atom matches deterministically (it can never consume a digit, and any
backtracked shorter match leaves a non-digit under the digit atom), so greedy
matching collapses to `dropWhile` of non-digits. -/
def matchCtAt (l : List Char) : Option (List Char) :=
  match takeDigits 3 l with
  | none => none
  | some (d3, r1) =>
    match takeDigits 4 (r1.dropWhile (fun c => !c.isDigit)) with
    | none => none
    | some (d4, r2) =>
      match takeDigits 1 (r2.dropWhile (fun c => !c.isDigit)) with
      | none => none
      | some (d1, r3) =>
        if boundaryAfterWord r3 then some (d3 ++ d4 ++ d1) else none

/-- Leftmost search of `(\d{3})\D*(\d{4})\D*(\d)\b` over the input
(`String.prototype.match` semantics: try each start position from the left). -/
def scanFormatted : List Char → Option (List Char)
  | [] => none
  | l@(_ :: rest) =>
    match matchCtAt l with
    | some ds => some ds
    | none => scanFormatted rest

/-- Attempt of the regex `\b(\d{8})\b` at the current position.  The leading
`\b` is evaluated against the previous character (`prevIsWord`); since the
first consumed character must be a digit (a word character), the boundary
holds exactly when the previous character is absent or not a word character. -/
def match8At (prevIsWord : Bool) (l : List Char) : Option (List Char) :=
  if prevIsWord then none
  else
    match takeDigits 8 l with
    | none => none
    | some (ds, rest) => if boundaryAfterWord rest then some ds else none

/-- Leftmost search of `\b(\d{8})\b`, threading whether the previous
character is a word character. -/
def scan8 (prevIsWord : Bool) : List Char → Option (List Char)
  | [] => none
  | l@(c :: rest) =>
    match match8At prevIsWord l with
    | some ds => some ds
    | none => scan8 (isWordChar c) rest

/-- Model of `extractDigits` from `lib/ctProductKey.js` on the character
list: first the hyphen-tolerant pattern, then the plain 8-digit run. -/
def extractDigitsL (l : List Char) : Option (List Char) :=
  match scanFormatted l with
  | some ds => some ds
  | none => scan8 false l

/-- `extractDigits` from `lib/ctProductKey.js`: `null` input gives `null`,
otherwise the regex search on the string. -/
def extractDigits (value : Option String) : Option String :=
  match value with
  | none => none
  | some s => (extractDigitsL s.data).map String.mk

/-- Hyphenation of an 8-digit list into the `NNN-NNNN-N` shape
(`FORMAT_SEGMENTS = [3, 4, 1]`). -/
def formatDigits (ds : List Char) : List Char :=
  ds.take 3 ++ '-' :: ((ds.drop 3).take 4 ++ '-' :: (ds.drop 7).take 1)

/-- `formatProductNumber` from `lib/ctProductKey.js`: requires a truthy
string of exactly 8 characters, otherwise `null`. -/
def formatProductNumber (digits : Option String) : Option String :=
  match digits with
  | none => none
  | some d => if d.length = 8 then some (String.mk (formatDigits d.data)) else none

/-- `normalizeCtProductNumber` from `lib/ctProductKey.js`. -/
def normalizeCtProductNumber (value : Option String) : Option String :=
  match extractDigits value with
  | none => none
  | some d => if d = "" then none else formatProductNumber (some d)

/-- Namespacing step shared by `makeCtProductKey` and `buildCtKeysFromText`:
a truthy product number `p` becomes the key `ct:p`. -/
def ctKeyOf : Option String → Option String
  | none => none
  | some p => if p = "" then none else some ("ct:" ++ p)

/-- `makeCtProductKey` from `lib/ctProductKey.js`. -/
def makeCtProductKey (value : Option String) : Option String :=
  ctKeyOf (normalizeCtProductNumber value)

/-- Result triple of `buildCtKeysFromText`. -/
structure CtKeys where
  productNumberRaw : Option String
  productNumber : Option String
  productKey : Option String
  deriving Repr, DecidableEq

/-- `buildCtKeysFromText` from `lib/ctProductKey.js`. -/
def buildCtKeysFromText (value : Option String) : CtKeys :=
  match extractDigits value with
  | none => ⟨none, none, none⟩
  | some d =>
    if d = "" then ⟨none, none, none⟩
    else
      let productNumber := formatProductNumber (some d)
      ⟨some d, productNumber, ctKeyOf productNumber⟩

/-! ### Digit-group lemmas for the product-number scanner -/

theorem takeDigits_spec : ∀ (n : ℕ) (l ds rest : List Char),
    takeDigits n l = some (ds, rest) →
    ds.length = n ∧ (∀ c ∈ ds, c.isDigit = true) ∧ l = ds ++ rest := by
  intro n
  induction n with
  | zero =>
    intro l ds rest h
    simp only [takeDigits, Option.some.injEq, Prod.mk.injEq] at h
    obtain ⟨rfl, rfl⟩ := h
    simp
  | succ n ih =>
    intro l ds rest h
    cases l with
    | nil => simp [takeDigits] at h
    | cons c l =>
      simp only [takeDigits] at h
      by_cases hc : c.isDigit
      · rw [if_pos hc] at h
        cases htd : takeDigits n l with
        | none => rw [htd] at h; exact absurd h (by simp)
        | some p =>
          obtain ⟨ds1, rest1⟩ := p
          rw [htd] at h
          simp only [Option.some.injEq, Prod.mk.injEq] at h
          obtain ⟨h1, h2⟩ := h
          obtain ⟨hlen, hdig, happ⟩ := ih l ds1 rest1 htd
          subst h1
          subst h2
          refine ⟨by simp [hlen], ?_, by simp [happ]⟩
          intro x hx
          rcases List.mem_cons.mp hx with rfl | hx
          · exact hc
          · exact hdig x hx
      · rw [if_neg hc] at h
        exact absurd h (by simp)

theorem matchCtAt_digits {l ds : List Char} (h : matchCtAt l = some ds) :
    ds.length = 8 ∧ ∀ c ∈ ds, c.isDigit = true := by
  unfold matchCtAt at h
  split at h
  · exact absurd h (by simp)
  · rename_i p3 d3 r1 h3
    split at h
    · exact absurd h (by simp)
    · rename_i p4 d4 r2 h4
      split at h
      · exact absurd h (by simp)
      · rename_i p1 d1 r3 h1
        split at h
        · rename_i hb
          obtain ⟨hl3, hd3, -⟩ := takeDigits_spec 3 l d3 r1 h3
          obtain ⟨hl4, hd4, -⟩ := takeDigits_spec 4 _ d4 r2 h4
          obtain ⟨hl1, hd1, -⟩ := takeDigits_spec 1 _ d1 r3 h1
          obtain rfl : d3 ++ d4 ++ d1 = ds := by simpa using h
          constructor
          · simp [hl3, hl4, hl1]
          · intro c hc
            rcases List.mem_append.mp hc with hc | hc
            · rcases List.mem_append.mp hc with hc | hc
              · exact hd3 c hc
              · exact hd4 c hc
            · exact hd1 c hc
        · exact absurd h (by simp)

theorem scanFormatted_digits : ∀ {l ds : List Char}, scanFormatted l = some ds →
    ds.length = 8 ∧ ∀ c ∈ ds, c.isDigit = true := by
  intro l
  induction l with
  | nil => intro ds h; simp [scanFormatted] at h
  | cons c rest ih =>
    intro ds h
    rw [scanFormatted] at h
    split at h
    · rename_i ds1 hm
      obtain rfl : ds1 = ds := by simpa using h
      exact matchCtAt_digits hm
    · exact ih h

theorem match8At_digits {w : Bool} {l ds : List Char} (h : match8At w l = some ds) :
    ds.length = 8 ∧ ∀ c ∈ ds, c.isDigit = true := by
  unfold match8At at h
  split at h
  · exact absurd h (by simp)
  · split at h
    · exact absurd h (by simp)
    · rename_i p ds1 rest h8
      split at h
      · have hds : ds1 = ds := by simpa using h
        obtain ⟨hl, hd, -⟩ := takeDigits_spec 8 l ds1 rest h8
        exact hds ▸ ⟨hl, hd⟩
      · exact absurd h (by simp)

theorem scan8_digits : ∀ {l : List Char} {w : Bool} {ds : List Char},
    scan8 w l = some ds → ds.length = 8 ∧ ∀ c ∈ ds, c.isDigit = true := by
  intro l
  induction l with
  | nil => intro w ds h; simp [scan8] at h
  | cons c rest ih =>
    intro w ds h
    rw [scan8] at h
    split at h
    · rename_i ds1 hm
      obtain rfl : ds1 = ds := by simpa using h
      exact match8At_digits hm
    · exact ih h

theorem extractDigitsL_spec {l ds : List Char} (h : extractDigitsL l = some ds) :
    ds.length = 8 ∧ ∀ c ∈ ds, c.isDigit = true := by
  unfold extractDigitsL at h
  split at h
  · rename_i ds1 hs
    obtain rfl : ds1 = ds := by simpa using h
    exact scanFormatted_digits hs
  · exact scan8_digits h

theorem extractDigits_digits {x : Option String} {d : String}
    (h : extractDigits x = some d) :
    d.data.length = 8 ∧ ∀ c ∈ d.data, c.isDigit = true := by
  unfold extractDigits at h
  cases x with
  | none => exact absurd h (by simp)
  | some s =>
    simp only [Option.map_eq_some'] at h
    obtain ⟨ds, hl, rfl⟩ := h
    exact extractDigitsL_spec hl

theorem extractDigitsL_format (ds : List Char) (h8 : ds.length = 8)
    (hdig : ∀ c ∈ ds, c.isDigit = true) :
    extractDigitsL (formatDigits ds) = some ds := by
  rcases ds with - | ⟨a1, - | ⟨a2, - | ⟨a3, - | ⟨a4, - | ⟨a5, - | ⟨a6, - | ⟨a7, - | ⟨a8, tl⟩⟩⟩⟩⟩⟩⟩⟩ <;>
    simp only [List.length_nil, List.length_cons] at h8 <;> try omega
  have htl : tl = [] := by
    have : tl.length = 0 := by omega
    exact List.length_eq_zero.mp this
  subst htl
  have k1 : a1.isDigit = true := hdig a1 (by simp)
  have k2 : a2.isDigit = true := hdig a2 (by simp)
  have k3 : a3.isDigit = true := hdig a3 (by simp)
  have k4 : a4.isDigit = true := hdig a4 (by simp)
  have k5 : a5.isDigit = true := hdig a5 (by simp)
  have k6 : a6.isDigit = true := hdig a6 (by simp)
  have k7 : a7.isDigit = true := hdig a7 (by simp)
  have k8 : a8.isDigit = true := hdig a8 (by simp)
  have hdash : ('-' : Char).isDigit = false := by decide
  simp [formatDigits, extractDigitsL, scanFormatted, matchCtAt, takeDigits,
    List.dropWhile, boundaryAfterWord, k1, k2, k3, k4, k5, k6, k7, k8, hdash]

theorem formatProductNumber_some (d : String) :
    formatProductNumber (some d) =
      if d.length = 8 then some (String.mk (formatDigits d.data)) else none := rfl

theorem extractDigits_some (s : String) :
    extractDigits (some s) = (extractDigitsL s.data).map String.mk := rfl

/-- C4: product-key derivation is format-invariant — the raw identifiers
"1234567-8", "12345678" and "#123-4567-8" all normalize to the canonical
product number "123-4567-8" and to the namespaced key "ct:123-4567-8" — and
idempotent: whenever `normalizeCtProductNumber` returns a non-null value,
running it again on that value returns the value unchanged. -/
theorem claim_C4_product_key_idempotent_format_invariant :
    (normalizeCtProductNumber (some "1234567-8") = some "123-4567-8" ∧
     normalizeCtProductNumber (some "12345678") = some "123-4567-8" ∧
     normalizeCtProductNumber (some "#123-4567-8") = some "123-4567-8" ∧
     makeCtProductKey (some "1234567-8") = some "ct:123-4567-8" ∧
     makeCtProductKey (some "12345678") = some "ct:123-4567-8" ∧
     makeCtProductKey (some "#123-4567-8") = some "ct:123-4567-8") ∧
    (∀ x y, normalizeCtProductNumber x = some y →
      normalizeCtProductNumber (some y) = some y) := by
  constructor
  · exact ⟨by decide, by decide, by decide, by decide, by decide, by decide⟩
  · intro x y h
    unfold normalizeCtProductNumber at h
    split at h
    · exact absurd h (by simp)
    · rename_i d hx
      split at h
      · exact absurd h (by simp)
      · rename_i hne
        rw [formatProductNumber_some] at h
        split at h
        · rename_i hlen
          have hy : String.mk (formatDigits d.data) = y := by
            simpa using h
          obtain ⟨hdl, hdig⟩ := extractDigits_digits hx
          have hfmt : extractDigitsL (formatDigits d.data) = some d.data :=
            extractDigitsL_format d.data hdl hdig
          have hE : extractDigits (some y) = some d := by
            rw [← hy, extractDigits_some]
            have hdata : (String.mk (formatDigits d.data)).data = formatDigits d.data := rfl
            rw [hdata, hfmt]
            simp only [Option.map_some']
          unfold normalizeCtProductNumber
          split
          · rename_i hnone
            rw [hE] at hnone
            exact absurd hnone (by simp)
          · rename_i dd hsome
            rw [hE] at hsome
            obtain rfl : d = dd := by simpa using hsome
            rw [if_neg hne, formatProductNumber_some, if_pos hlen, hy]
        · exact absurd h (by simp)

/-! ### extractPrice (scraper_ct.js, UTILS) -/

/-- Leftmost match of the regex `(\d+[\.,]?\d*)` on a whitespace-free input:
the match must start at the first digit, `\d+` is the maximal digit run,
then an optional single `.` or `,` and a maximal (possibly empty) digit run.
Returns the integer digits and the fraction digits. -/
def matchPriceToken (l : List Char) : Option (List Char × List Char) :=
  match l.dropWhile (fun c => !c.isDigit) with
  | [] => none
  | l1 =>
    let ip := l1.takeWhile Char.isDigit
    match l1.dropWhile Char.isDigit with
    | c :: r2 =>
      if c = '.' ∨ c = ',' then some (ip, r2.takeWhile Char.isDigit) else some (ip, [])
    | [] => some (ip, [])

/-- Exact value of `parseFloat` on a decimal token `ip[.fp]` (the comma was
already replaced by a dot). -/
def ratOfDecimal (ip fp : List Char) : ℚ :=
  (digitsToNat ip : ℚ) + (digitsToNat fp : ℚ) / (10 : ℚ) ^ fp.length

/-- `extractPrice` from `scraper_ct.js`: strips every `\s` character (spaces,
no-break spaces, ...), finds the first `(\d+[\.,]?\d*)` token, replaces the
comma by a dot and parses the float; `null` when no token exists. -/
def extractPrice (text : Option String) : Option ℚ :=
  match text with
  | none => none
  | some s =>
    match matchPriceToken (s.data.filter (fun c => !isJsSpace c)) with
    | none => none
    | some (ip, fp) => some (ratOfDecimal ip fp)

/-- C6: price parsing is total — for every input (null or arbitrary string)
it returns a number or null, never an error — strips currency symbols and
whitespace and tolerates comma decimals: "24,99 $" parses to 24.99 and
"n/a" parses to null. -/
theorem claim_C6_extract_price_total_and_examples :
    (∀ t : Option String, extractPrice t = none ∨ ∃ q : ℚ, extractPrice t = some q) ∧
    extractPrice (some "24,99 $") = some (2499 / 100 : ℚ) ∧
    extractPrice (some "n/a") = none := by
  refine ⟨?_, ?_, by decide⟩
  · intro t
    cases h : extractPrice t with
    | none => exact Or.inl rfl
    | some q => exact Or.inr ⟨q, rfl⟩
  · have htok : matchPriceToken ((("24,99 $" : String).data).filter (fun c => !isJsSpace c)) =
        some (['2', '4'], ['9', '9']) := by decide
    have h2 : ('2'.toNat - 48) = 2 := by decide
    have h4 : ('4'.toNat - 48) = 4 := by decide
    have h9 : ('9'.toNat - 48) = 9 := by decide
    simp only [extractPrice, htok, ratOfDecimal, digitsToNat, List.foldl, List.length,
      h2, h4, h9]
    norm_num

/-! ### normalizeAvailabilityInfo (scraper_ct.js) -/

/-- Base letter of a precomposed Latin letter under Unicode NFD with the
combining marks U+0300..U+036F removed (the scraper applies
`normalize("NFD").replace(/[̀-ͯ]/g, "")`); the map covers the
Latin-1 accented letters that French availability texts contain, every other
character decomposes to itself. -/
def stripAccent (c : Char) : Char :=
  match c with
  | 'à' | 'á' | 'â' | 'ã' | 'ä' | 'å' => 'a'
  | 'À' | 'Á' | 'Â' | 'Ã' | 'Ä' | 'Å' => 'A'
  | 'ç' => 'c'
  | 'Ç' => 'C'
  | 'è' | 'é' | 'ê' | 'ë' => 'e'
  | 'È' | 'É' | 'Ê' | 'Ë' => 'E'
  | 'ì' | 'í' | 'î' | 'ï' => 'i'
  | 'Ì' | 'Í' | 'Î' | 'Ï' => 'I'
  | 'ñ' => 'n'
  | 'Ñ' => 'N'
  | 'ò' | 'ó' | 'ô' | 'õ' | 'ö' => 'o'
  | 'Ò' | 'Ó' | 'Ô' | 'Õ' | 'Ö' => 'O'
  | 'ù' | 'ú' | 'û' | 'ü' => 'u'
  | 'Ù' | 'Ú' | 'Û' | 'Ü' => 'U'
  | 'ý' | 'ÿ' => 'y'
  | 'Ý' => 'Y'
  | other => other

/-- Combining diacritical marks range removed by the scraper. -/
def isCombiningMark (c : Char) : Bool :=
  0x300 ≤ c.toNat && c.toNat ≤ 0x36f

/-- The `normalize("NFD").replace(/[̀-ͯ]/g, "").toLowerCase()`
pipeline applied to availability text. -/
def normalizeTextJs (s : String) : String :=
  String.mk (((s.data.map stripAccent).filter (fun c => !isCombiningMark c)).map Char.toLower)

/-- Anchored substring test: does `pat` occur at the head of the text? -/
def isSubAt : List Char → List Char → Bool
  | [], _ => true
  | _ :: _, [] => false
  | p :: ps, c :: cs => p = c && isSubAt ps cs

/-- Unanchored substring test (the semantics of a literal-alternative JS
regex `.test`). -/
def containsSub (pat : List Char) : List Char → Bool
  | [] => isSubAt pat []
  | l@(_ :: rest) => isSubAt pat l || containsSub pat rest

/-- String-level substring test. -/
def strContains (t pat : String) : Bool :=
  containsSub pat.data t.data

/-- Test of `/(rupture|out of stock|epuise|sold out|indisponible|not available)/`. -/
def hasOutKeyword (t : String) : Bool :=
  strContains t "rupture" || strContains t "out of stock" || strContains t "epuise" ||
  strContains t "sold out" || strContains t "indisponible" || strContains t "not available"

/-- Test of `/(en stock|available|disponible|quantite|reste)/`. -/
def hasInKeyword (t : String) : Bool :=
  strContains t "en stock" || strContains t "available" || strContains t "disponible" ||
  strContains t "quantite" || strContains t "reste"

theorem dropWhile_length_le (p : Char → Bool) :
    ∀ l : List Char, (l.dropWhile p).length ≤ l.length := by
  intro l
  induction l with
  | nil => simp
  | cons c l ih =>
    rw [List.dropWhile_cons]
    split
    · exact Nat.le_trans ih (Nat.le_succ _)
    · exact Nat.le_refl _

/-- Accumulating scan grouping consecutive digits: `run` holds the digits of
the current run in reverse. -/
def digitRunsGo : List Char → List Char → List (List Char)
  | run, [] => if run.isEmpty then [] else [run.reverse]
  | run, c :: l =>
    if c.isDigit then digitRunsGo (c :: run) l
    else if run.isEmpty then digitRunsGo [] l
    else run.reverse :: digitRunsGo [] l

/-- Maximal digit runs of a character list, in order (the matches of the JS
global regex `/(\d+)/g`). -/
def digitRuns (l : List Char) : List (List Char) :=
  digitRunsGo [] l

/-- First number below 10,000 among the digit runs of the part of the text
before the first `#` (the stock-quantity heuristic of
`normalizeAvailabilityInfo`). -/
def firstPrefixQty (t : String) : Option ℕ :=
  (((digitRuns (t.data.takeWhile (fun c => c ≠ '#'))).map digitsToNat).filter
    (fun n => n < 10000)).head?

/-- Result record of `normalizeAvailabilityInfo`. -/
structure AvailabilityInfo where
  availability : String
  stockQty : Option ℚ
  availabilityText : Option String
  deriving Repr, DecidableEq

/-- `normalizeAvailabilityInfo` from `scraper_ct.js`: trims the text, passes
through an already-normalized enum value, finds an explicit quantity below
10,000 in the part before `#` (quantity decides in/out of stock by sign),
otherwise matches bilingual keyword vocabularies on the accent-stripped
lowercased text, otherwise `unknown`. -/
def normalizeAvailabilityInfo (rawAvailability : Option String)
    (stockQtyInput : Option ℚ) : AvailabilityInfo :=
  let availabilityText : Option String := rawAvailability.map jsTrim
  let isEnum : Bool :=
    match truthyS availabilityText with
    | some t => t = "in_stock" || t = "out_of_stock" || t = "unknown"
    | none => false
  let availability0 : String :=
    if isEnum then (truthyS availabilityText).getD "unknown" else "unknown"
  let stockQty : Option ℚ :=
    match stockQtyInput with
    | some q => some q
    | none =>
      match truthyS availabilityText with
      | none => none
      | some t => (firstPrefixQty t).map (fun n => (n : ℚ))
  let availability : String :=
    match stockQty with
    | some q => if q > 0 then "in_stock" else "out_of_stock"
    | none =>
      let normalizedText :=
        match truthyS availabilityText with
        | some t => normalizeTextJs t
        | none => ""
      if !isEnum && normalizedText ≠ "" then
        if hasOutKeyword normalizedText then "out_of_stock"
        else if hasInKeyword normalizedText then "in_stock"
        else availability0
      else availability0
  ⟨availability, stockQty, truthyS availabilityText⟩

theorem truthyS_some (s : String) :
    truthyS (some s) = if s = "" then none else some s := rfl

/-- Availability decision chain in the words of the claim: an explicit
quantity below 10,000 found in the text (before any `#`) decides
in/out of stock by sign and is returned as `stockQty`; otherwise a bilingual
keyword match decides with `stockQty` null; otherwise `unknown`.  This is the
claimed behaviour, written independently of the code, for comparison; it has
no pass-through of already-normalized enum values. -/
def availabilityClaimed (s : String) : AvailabilityInfo :=
  let t := jsTrim s
  if t = "" then ⟨"unknown", none, none⟩
  else
    match firstPrefixQty t with
    | some n => ⟨if (n : ℚ) > 0 then "in_stock" else "out_of_stock", some (n : ℚ), some t⟩
    | none =>
      if hasOutKeyword (normalizeTextJs t) then ⟨"out_of_stock", none, some t⟩
      else if hasInKeyword (normalizeTextJs t) then ⟨"in_stock", none, some t⟩
      else ⟨"unknown", none, some t⟩

/-- Availability decision chain as the amended claim describes it: as the
original claim, except that a trimmed text that already equals one of the
enum values `in_stock`/`out_of_stock`/`unknown` (and carries no explicit
quantity) is passed through unchanged rather than falling to `unknown`. -/
def availabilityAmended (s : String) : AvailabilityInfo :=
  let t := jsTrim s
  if t = "" then ⟨"unknown", none, none⟩
  else
    match firstPrefixQty t with
    | some n => ⟨if (n : ℚ) > 0 then "in_stock" else "out_of_stock", some (n : ℚ), some t⟩
    | none =>
      if t = "in_stock" || t = "out_of_stock" || t = "unknown" then ⟨t, none, some t⟩
      else if hasOutKeyword (normalizeTextJs t) then ⟨"out_of_stock", none, some t⟩
      else if hasInKeyword (normalizeTextJs t) then ⟨"in_stock", none, some t⟩
      else ⟨"unknown", none, some t⟩

/-- C5 counterexample: on the text "out_of_stock" — no quantity, no keyword
match (the out-of-stock vocabulary contains "out of stock" with spaces, not
underscores) — the claimed chain answers `unknown`, but the code passes the
already-normalized enum value through and answers `out_of_stock`. -/
theorem claim_C5_counterexample :
    normalizeAvailabilityInfo (some "out_of_stock") none ≠
      availabilityClaimed "out_of_stock" ∧
    (normalizeAvailabilityInfo (some "out_of_stock") none).availability = "out_of_stock" ∧
    (availabilityClaimed "out_of_stock").availability = "unknown" ∧
    (availabilityClaimed "out_of_stock").stockQty = none ∧
    hasOutKeyword (normalizeTextJs "out_of_stock") = false ∧
    hasInKeyword (normalizeTextJs "out_of_stock") = false ∧
    firstPrefixQty "out_of_stock" = none := by
  refine ⟨by decide, by decide, by decide, by decide, by decide, by decide, by decide⟩

/-- C5 (amended): `normalizeAvailabilityInfo` on a text (with no explicit
stock-quantity argument) behaves exactly as the claimed chain amended with
the enum pass-through, and in particular "Plus que 3 en stock" gives
`in_stock` with quantity 3, "Rupture de stock" gives `out_of_stock` with no
quantity, and the unrecognized "n/a" gives `unknown`. -/
theorem claim_C5_availability_normalization :
    (∀ s : String, normalizeAvailabilityInfo (some s) none = availabilityAmended s) ∧
    normalizeAvailabilityInfo (some "Plus que 3 en stock") none =
      ⟨"in_stock", some 3, some "Plus que 3 en stock"⟩ ∧
    normalizeAvailabilityInfo (some "Rupture de stock") none =
      ⟨"out_of_stock", none, some "Rupture de stock"⟩ ∧
    normalizeAvailabilityInfo (some "n/a") none = ⟨"unknown", none, some "n/a"⟩ := by
  refine ⟨?_, by decide, by decide, by decide⟩
  intro s
  unfold normalizeAvailabilityInfo availabilityAmended
  simp only [Option.map_some', truthyS_some]
  by_cases ht : jsTrim s = ""
  · simp [ht]
  · simp only [ht, if_neg ht, ite_false]
    cases hq : firstPrefixQty (jsTrim s) with
    | some n => simp [hq]
    | none =>
      by_cases henum :
          (jsTrim s = "in_stock" || jsTrim s = "out_of_stock" || jsTrim s = "unknown") = true
      · simp [hq, henum]
      · by_cases hnt : normalizeTextJs (jsTrim s) = ""
        · have hout : hasOutKeyword (normalizeTextJs (jsTrim s)) = false := by
            rw [hnt]; decide
          have hin : hasInKeyword (normalizeTextJs (jsTrim s)) = false := by
            rw [hnt]; decide
          have ho : hasOutKeyword "" = false := by decide
          have hi : hasInKeyword "" = false := by decide
          simp [hq, henum, hnt, hout, hin, ho, hi]
        · by_cases ho : hasOutKeyword (normalizeTextJs (jsTrim s)) = true
          · simp [hq, henum, hnt, ho]
          · by_cases hi : hasInKeyword (normalizeTextJs (jsTrim s)) = true
            · simp [hq, henum, hnt, ho, hi]
            · simp [hq, henum, hnt, ho, hi]

/-- Witness for C4: the idempotence conjunct applied at the concrete raw
identifier "0425777-1". -/
theorem claim_C4_witness :
    normalizeCtProductNumber (some "0425777-1") = some "042-5777-1" ∧
    normalizeCtProductNumber (some "042-5777-1") = some "042-5777-1" :=
  ⟨by decide,
   claim_C4_product_key_idempotent_format_invariant.2 (some "0425777-1") "042-5777-1"
     (by decide)⟩

/-! ### Discount computation and record creation (scraper_ct.js) -/

/-- JS nullish coalescing on nullable numbers. -/
def nullishQ (a b : Option ℚ) : Option ℚ :=
  match a with
  | some q => some q
  | none => b

/-- ASCII model of `String.prototype.toLowerCase`. -/
def toLowerS (s : String) : String :=
  String.mk (s.data.map Char.toLower)

/-- CLI default of `--include-regular-price` (`parseBooleanArg(undefined, true)`). -/
def INCLUDE_REGULAR_PRICE : Bool := true

/-- CLI default of `--include-liquidation-price`. -/
def INCLUDE_LIQUIDATION_PRICE : Bool := true

/-- `computeDiscountPercent` from `scraper_ct.js`: null prices or
non-positive prices give null, otherwise the raw (unrounded) percentage
`(regular - liquidation) / regular * 100`; the `Number.isFinite` guard of
the code never fires on exact rationals. -/
def computeDiscountPercent (regularPrice liquidationPrice : Option ℚ) : Option ℚ :=
  match regularPrice, liquidationPrice with
  | some r, some s =>
    if r ≤ 0 ∨ s ≤ 0 then none
    else some ((r - s) / r * 100)
  | _, _ => none

/-- JS `Math.round(q * 100) / 100` (`Math.round` rounds half toward
positive infinity, i.e. `floor(x + 1/2)`). -/
def round2 (q : ℚ) : ℚ :=
  ((Int.floor (q * 100 + 1 / 2) : ℤ) : ℚ) / 100

/-- Attempt of the regex body `(\d{3}-\d{4}-\d)\b` anchored at the head. -/
def matchDashedAt (l : List Char) : Option (List Char) :=
  match takeDigits 3 l with
  | none => none
  | some (d3, r1) =>
    match r1 with
    | c :: r2 =>
      if c = '-' then
        match takeDigits 4 r2 with
        | none => none
        | some (d4, r3) =>
          match r3 with
          | c2 :: r4 =>
            if c2 = '-' then
              match takeDigits 1 r4 with
              | none => none
              | some (d1, r5) =>
                if boundaryAfterWord r5 then
                  some (d3 ++ '-' :: (d4 ++ '-' :: d1))
                else none
            else none
          | [] => none
      else none
    | [] => none

/-- Attempt of `#?\s*(\d{3}-\d{4}-\d)\b` at the current position, returning
the whole match (`match[0]`) with the consumed `#` and whitespace.  When a
leading `#` is consumed and the tail fails, retrying with an empty `#?` also
fails (`\s*` cannot consume `#`), so no backtracking case is needed. -/
def matchHashFormattedAt (l : List Char) : Option (List Char) :=
  match l with
  | '#' :: rest =>
    (matchDashedAt (rest.dropWhile isJsSpace)).map
      (fun m => '#' :: (rest.takeWhile isJsSpace ++ m))
  | _ =>
    (matchDashedAt (l.dropWhile isJsSpace)).map
      (fun m => l.takeWhile isJsSpace ++ m)

/-- Leftmost search of `#?\s*(\d{3}-\d{4}-\d)\b`. -/
def scanHashFormatted : List Char → Option (List Char)
  | [] => none
  | l@(_ :: rest) =>
    match matchHashFormattedAt l with
    | some m => some m
    | none => scanHashFormatted rest

/-- `findProductNumberInText` from `scraper_ct.js`: falsy input gives null;
then the hyphenated pattern returns the whole match, else a bare bounded
8-digit run returns the digits. -/
def findProductNumberInText (value : Option String) : Option String :=
  match truthyS value with
  | none => none
  | some s =>
    match scanHashFormatted s.data with
    | some m => some (String.mk m)
    | none => (scan8 false s.data).map String.mk

/-- `extractCtProductNumberRaw` from `scraper_ct.js`: first candidate in
which a product number is found. -/
def extractCtProductNumberRaw : List (Option String) → Option String
  | [] => none
  | c :: rest =>
    match findProductNumberInText c with
    | some found => some found
    | none => extractCtProductNumberRaw rest

/-- Store context handed to `createRecordFromCard`. -/
structure StoreContext where
  storeId : Option String
  city : Option String
  deriving Repr, DecidableEq

/-- Raw card fields read by `createRecordFromCard`; absent JS fields are
`none`. -/
structure Card where
  name : Option String
  title : Option String
  link : Option String
  image : Option String
  availability : Option String
  price_sale_raw : Option String
  price_sale : Option String
  price_original_raw : Option String
  price_original : Option String
  product_number_raw : Option String
  product_number : Option String
  productNumberRaw : Option String
  productNumber : Option String
  product_key : Option String
  productKey : Option String
  product_id : Option String
  sku : Option String
  sku_formatted : Option String
  badges : Option (List String)
  discount_percent : Option ℚ
  stockQty : Option ℚ
  stock_qty : Option ℚ
  deriving Repr, DecidableEq

/-- Card with every field absent. -/
def Card.blank : Card :=
  ⟨none, none, none, none, none, none, none, none, none, none, none,
   none, none, none, none, none, none, none, none, none, none, none⟩

/-- Output record of `createRecordFromCard`. -/
structure CtRecord where
  store_id : Option String
  city : Option String
  name : Option String
  title : Option String
  price : Option ℚ
  price_raw : Option String
  liquidation : Bool
  image : Option String
  image_url : Option String
  url : Option String
  link : Option String
  product_id : Option String
  sku : Option String
  sku_formatted : Option String
  product_number_raw : Option String
  product_number : Option String
  product_key : Option String
  productNumberRaw : Option String
  productNumber : Option String
  productKey : Option String
  availability : String
  availability_text : Option String
  stockQty : Option ℚ
  badges : List String
  discount_percent : Option ℚ
  liquidation_price : Option ℚ
  liquidation_price_raw : Option String
  sale_price : Option ℚ
  sale_price_raw : Option String
  regular_price : Option ℚ
  regular_price_raw : Option String
  price_sale_clean : Option String
  price_original_clean : Option String
  deriving Repr, DecidableEq

/-- Acceptance test of `createRecordFromCard` (its local
`meetsDiscountThreshold`): regular and sale price parsed and positive, and
the discount percentage (null counts as failing) at least 50. -/
def meetsDiscountThreshold (regularPrice salePrice discountPercent : Option ℚ) : Bool :=
  regularPrice.elim false (fun r => decide (0 < r)) &&
  salePrice.elim false (fun s => decide (0 < s)) &&
  discountPercent.elim false (fun d => decide (50 ≤ d))

/-- `createRecordFromCard` from `scraper_ct.js`: parses the sale and regular
prices, derives product number and key, computes the discount (card-supplied
value wins over the computed one), and returns null unless regular and sale
prices are positive and the discount reaches 50; the stored
`discount_percent` is the value rounded to 2 decimals. -/
def createRecordFromCard (card : Card) (pageIsClearance : Bool)
    (storeContext : StoreContext) : Option CtRecord :=
  let priceSaleRaw := nullishS card.price_sale_raw card.price_sale
  let priceWasRaw := nullishS card.price_original_raw card.price_original
  let salePrice := extractPrice priceSaleRaw
  let regularPrice := extractPrice priceWasRaw
  let priceRaw := jsOrS priceSaleRaw (jsOrS priceWasRaw none)
  let price := nullishQ salePrice regularPrice
  let availabilityKeys := buildCtKeysFromText card.availability
  let productNumberRaw :=
    nullishS card.product_number_raw
      (nullishS (extractCtProductNumberRaw
          [card.product_number, card.link, card.name, card.title])
        (nullishS availabilityKeys.productNumberRaw card.productNumberRaw))
  let productNumber :=
    nullishS (normalizeCtProductNumber productNumberRaw)
      (nullishS availabilityKeys.productNumber
        (normalizeCtProductNumber (nullishS card.product_number card.productNumber)))
  let productKey :=
    jsOrS card.product_key
      (jsOrS card.productKey
        (jsOrS (makeCtProductKey
            (nullishS productNumberRaw
              (nullishS availabilityKeys.productNumberRaw
                (nullishS card.product_number card.productNumber))))
          availabilityKeys.productKey))
  let discountPercent :=
    nullishQ card.discount_percent (computeDiscountPercent regularPrice salePrice)
  if meetsDiscountThreshold regularPrice salePrice discountPercent then
    let discount_percent := discountPercent.map round2
    let badges := card.badges.getD []
    let hasLiquidationBadge :=
      badges.any (fun b =>
        strContains (toLowerS b) "liquidation" || strContains (toLowerS b) "clearance")
    let isLiquidation :=
      hasLiquidationBadge ||
      (pageIsClearance && salePrice.isSome &&
        (regularPrice.isNone ||
          (match regularPrice, salePrice with
           | some r, some sp => decide (sp ≤ r)
           | _, _ => false)))
    let availabilityInfo :=
      normalizeAvailabilityInfo card.availability (nullishQ card.stockQty card.stock_qty)
    some
      { store_id := truthyS storeContext.storeId
        city := truthyS storeContext.city
        name := truthyS card.name
        title := truthyS card.name
        price := price
        price_raw := priceRaw
        liquidation := isLiquidation
        image := truthyS card.image
        image_url := truthyS card.image
        url := truthyS card.link
        link := truthyS card.link
        product_id := truthyS card.product_id
        sku := truthyS card.sku
        sku_formatted := truthyS card.sku_formatted
        product_number_raw := truthyS productNumberRaw
        product_number := truthyS productNumber
        product_key := truthyS productKey
        productNumberRaw := truthyS productNumberRaw
        productNumber := truthyS productNumber
        productKey := truthyS productKey
        availability := availabilityInfo.availability
        availability_text := availabilityInfo.availabilityText
        stockQty := availabilityInfo.stockQty
        badges := badges
        discount_percent := discount_percent
        liquidation_price := if INCLUDE_LIQUIDATION_PRICE then salePrice else none
        liquidation_price_raw :=
          if INCLUDE_LIQUIDATION_PRICE then jsOrS priceSaleRaw none else none
        sale_price := if INCLUDE_LIQUIDATION_PRICE then salePrice else none
        sale_price_raw := if INCLUDE_LIQUIDATION_PRICE then jsOrS priceSaleRaw none else none
        regular_price := if INCLUDE_REGULAR_PRICE then regularPrice else none
        regular_price_raw := if INCLUDE_REGULAR_PRICE then jsOrS priceWasRaw none else none
        price_sale_clean := truthyS card.price_sale
        price_original_clean := truthyS card.price_original }
  else none

theorem extractPrice_eval {s : String} {ip : List Char} {n : ℕ}
    (htok : matchPriceToken (s.data.filter (fun c => !isJsSpace c)) = some (ip, []))
    (hval : digitsToNat ip = n) :
    extractPrice (some s) = some ((n : ℕ) : ℚ) := by
  have h0 : digitsToNat [] = 0 := rfl
  simp [extractPrice, htok, ratOfDecimal, hval, h0]

/-- Characterization of `createRecordFromCard` on a card with no
pre-computed discount: the record exists exactly when both prices parse,
both are positive and the unrounded percentage reaches 50, and then the
stored `discount_percent` is the percentage rounded to two decimals;
otherwise the result is null. -/
theorem createRecordFromCard_discount_cases
    (card : Card) (pic : Bool) (ctx : StoreContext)
    (hdp : card.discount_percent = none) :
    match extractPrice (nullishS card.price_original_raw card.price_original),
          extractPrice (nullishS card.price_sale_raw card.price_sale) with
    | some r, some s =>
      if 0 < r ∧ 0 < s ∧ 50 ≤ (r - s) / r * 100 then
        ∃ rec, createRecordFromCard card pic ctx = some rec ∧
          rec.discount_percent = some (round2 ((r - s) / r * 100))
      else createRecordFromCard card pic ctx = none
    | _, _ => createRecordFromCard card pic ctx = none := by
  cases hr : extractPrice (nullishS card.price_original_raw card.price_original) with
  | none =>
    simp only []
    simp [createRecordFromCard, meetsDiscountThreshold, hr]
  | some r =>
    cases hs : extractPrice (nullishS card.price_sale_raw card.price_sale) with
    | none =>
      simp only []
      simp [createRecordFromCard, meetsDiscountThreshold, hs]
    | some s =>
      simp only []
      by_cases h1 : 0 < r
      · by_cases h2 : 0 < s
        · have hd : computeDiscountPercent (some r) (some s) = some ((r - s) / r * 100) := by
            simp only [computeDiscountPercent]
            rw [if_neg]
            push_neg
            exact ⟨h1, h2⟩
          by_cases h3 : 50 ≤ (r - s) / r * 100
          · rw [if_pos ⟨h1, h2, h3⟩]
            simp only [createRecordFromCard, meetsDiscountThreshold, hr, hs, hdp,
              nullishQ, hd, Option.elim]
            simp only [h1, h2, h3, decide_True, Bool.and_self, if_true]
            refine ⟨_, rfl, ?_⟩
            simp
          · rw [if_neg (by tauto)]
            simp [createRecordFromCard, meetsDiscountThreshold, hr, hs, hdp, nullishQ, hd, h3]
        · rw [if_neg (by tauto)]
          have hd : computeDiscountPercent (some r) (some s) = none := by
            simp only [computeDiscountPercent]
            rw [if_pos (Or.inr (not_lt.mp h2))]
          simp [createRecordFromCard, meetsDiscountThreshold, hr, hs, hdp, nullishQ, hd, h2]
      · rw [if_neg (by tauto)]
        have hd : computeDiscountPercent (some r) (some s) = none := by
          simp only [computeDiscountPercent]
          rw [if_pos (Or.inl (not_lt.mp h1))]
        simp [createRecordFromCard, meetsDiscountThreshold, hr, hs, hdp, nullishQ, hd, h1]

theorem round2_eval (q : ℚ) (z : ℤ) (h1 : (z : ℚ) ≤ q * 100 + 1 / 2)
    (h2 : q * 100 + 1 / 2 < z + 1) : round2 q = (z : ℚ) / 100 := by
  unfold round2
  rw [Int.floor_eq_iff.mpr ⟨h1, h2⟩]

/-- Card carrying only the two raw price strings, as extracted from a
listing card. -/
def discountCard (regular sale : String) : Card :=
  { Card.blank with price_original_raw := some regular, price_sale_raw := some sale }

/-- C1 counterexample: with regular price 100000 and sale price 50004 the
raw discount is 49.996, whose two-decimal rounding is 50, so the claimed
acceptance condition (rounded value at least 50) holds — yet the code
compares the unrounded value with 50 and rejects the card. -/
theorem claim_C1_counterexample :
    createRecordFromCard (discountCard "100000" "50004") false ⟨none, none⟩ = none ∧
    extractPrice (some "100000") = some 100000 ∧
    extractPrice (some "50004") = some 50004 ∧
    (0 : ℚ) < 100000 ∧ (0 : ℚ) < 50004 ∧
    50 ≤ round2 (((100000 : ℚ) - 50004) / 100000 * 100) ∧
    ((100000 : ℚ) - 50004) / 100000 * 100 < 50 := by
  have e1 : extractPrice (some "100000") = some ((100000 : ℕ) : ℚ) :=
    @extractPrice_eval "100000" ['1', '0', '0', '0', '0', '0'] 100000 (by decide) (by decide)
  have e2 : extractPrice (some "50004") = some ((50004 : ℕ) : ℚ) :=
    @extractPrice_eval "50004" ['5', '0', '0', '0', '4'] 50004 (by decide) (by decide)
  have hround : round2 (((100000 : ℚ) - 50004) / 100000 * 100) = 50 := by
    have hq : ((100000 : ℚ) - 50004) / 100000 * 100 = 49996 / 1000 := by norm_num
    rw [hq, round2_eval (49996 / 1000) 5000 (by norm_num) (by norm_num)]
    norm_num
  refine ⟨?_, by simpa using e1, by simpa using e2, by norm_num, by norm_num,
    by rw [hround], by norm_num⟩
  have h := createRecordFromCard_discount_cases (discountCard "100000" "50004") false
    ⟨none, none⟩ rfl
  simp only [discountCard, Card.blank, nullishS, e1, e2, Nat.cast_ofNat] at h
  rwa [if_neg (by norm_num)] at h

/-- C1 (amended): for every pair of parsed prices, `createRecordFromCard`
accepts the card iff regular > 0, sale > 0 and the unrounded
`(regular-sale)/regular*100` is at least 50; on acceptance the stored
`discount_percent` is that percentage rounded to two decimals
(`round2`), and otherwise the function returns null (the card is silently
dropped).  In particular (100, 40) yields 60 and is accepted, and
(100, 60) yields 40 and is rejected. -/
theorem claim_C1_discount_threshold :
    (∀ (card : Card) (pic : Bool) (ctx : StoreContext),
      card.discount_percent = none →
      match extractPrice (nullishS card.price_original_raw card.price_original),
            extractPrice (nullishS card.price_sale_raw card.price_sale) with
      | some r, some s =>
        if 0 < r ∧ 0 < s ∧ 50 ≤ (r - s) / r * 100 then
          ∃ rec, createRecordFromCard card pic ctx = some rec ∧
            rec.discount_percent = some (round2 ((r - s) / r * 100))
        else createRecordFromCard card pic ctx = none
      | _, _ => createRecordFromCard card pic ctx = none) ∧
    (∃ rec, createRecordFromCard (discountCard "100" "40") false ⟨none, none⟩ = some rec ∧
      rec.discount_percent = some 60) ∧
    createRecordFromCard (discountCard "100" "60") false ⟨none, none⟩ = none := by
  refine ⟨createRecordFromCard_discount_cases, ?_, ?_⟩
  · have h := createRecordFromCard_discount_cases (discountCard "100" "40") false
      ⟨none, none⟩ rfl
    have e1 : extractPrice (some "100") = some ((100 : ℕ) : ℚ) :=
      @extractPrice_eval "100" ['1', '0', '0'] 100 (by decide) (by decide)
    have e2 : extractPrice (some "40") = some ((40 : ℕ) : ℚ) :=
      @extractPrice_eval "40" ['4', '0'] 40 (by decide) (by decide)
    simp only [discountCard, Card.blank, nullishS, e1, e2, Nat.cast_ofNat] at h
    rw [if_pos (by norm_num)] at h
    have hq : ((100 : ℚ) - 40) / 100 * 100 = 60 := by norm_num
    rw [hq] at h
    have hround : round2 (60 : ℚ) = 60 := by
      rw [round2_eval 60 6000 (by norm_num) (by norm_num)]
      norm_num
    rwa [hround] at h
  · have h := createRecordFromCard_discount_cases (discountCard "100" "60") false
      ⟨none, none⟩ rfl
    have e1 : extractPrice (some "100") = some ((100 : ℕ) : ℚ) :=
      @extractPrice_eval "100" ['1', '0', '0'] 100 (by decide) (by decide)
    have e2 : extractPrice (some "60") = some ((60 : ℕ) : ℚ) :=
      @extractPrice_eval "60" ['6', '0'] 60 (by decide) (by decide)
    simp only [discountCard, Card.blank, nullishS, e1, e2, Nat.cast_ofNat] at h
    rwa [if_neg (by norm_num)] at h

/-- Witness for C1: the general conjunct applied to the concrete card with
regular price "100" and sale price "40", the hypothesis (no pre-computed
discount on the card) discharged definitionally. -/
theorem claim_C1_witness :
    (match extractPrice (nullishS (discountCard "100" "40").price_original_raw
             (discountCard "100" "40").price_original),
           extractPrice (nullishS (discountCard "100" "40").price_sale_raw
             (discountCard "100" "40").price_sale) with
     | some r, some s =>
       if 0 < r ∧ 0 < s ∧ 50 ≤ (r - s) / r * 100 then
         ∃ rec, createRecordFromCard (discountCard "100" "40") false ⟨none, none⟩ = some rec ∧
           rec.discount_percent = some (round2 ((r - s) / r * 100))
       else createRecordFromCard (discountCard "100" "40") false ⟨none, none⟩ = none
     | _, _ => createRecordFromCard (discountCard "100" "40") false ⟨none, none⟩ = none) :=
  claim_C1_discount_threshold.1 (discountCard "100" "40") false ⟨none, none⟩ rfl

/-! ### Deduplication (scraper_ct.js) -/

/-- Record shape consumed by the deduplication helpers: exactly the fields
`buildStableDedupKey` and the discount filter of the store run read.  The
records the scraper actually builds carry more fields, but `dedupeDeals`
works on arbitrary objects, so the claims are stated over this shape. -/
structure DealRecord where
  product_key : Option String
  productKey : Option String
  store_id : Option String
  storeId : Option String
  sku : Option String
  sku_formatted : Option String
  url : Option String
  link : Option String
  discount_percent : Option ℚ
  deriving Repr, DecidableEq

/-- `normalizeProductUrlForDedup` from `scraper_ct.js`, with the WHATWG URL
resolution abstracted: `urlNorm` stands for `new URL(rawUrl, BASE)` with
search and hash cleared, serialized and lowercased, together with its catch
fallback `String(rawUrl).toLowerCase()`; both produce a plain string, so the
function is deterministic and total.  A falsy raw URL gives null. -/
def normalizeProductUrlForDedup (urlNorm : String → String) (rawUrl : Option String) :
    Option String :=
  match truthyS rawUrl with
  | none => none
  | some s => some (urlNorm s)

/-- `buildStableDedupKey` from `scraper_ct.js`: priority chain product key,
then (store id, sku), then (store id, normalized URL); null when none is
derivable. -/
def buildStableDedupKey (urlNorm : String → String) (r : DealRecord) : Option String :=
  match truthyS (jsOrS r.product_key r.productKey) with
  | some pk => some ("product_key:" ++ toLowerS pk)
  | none =>
    let storeId := nullishS r.store_id (nullishS r.storeId none)
    let sku := nullishS r.sku (nullishS r.sku_formatted none)
    match truthyS storeId, truthyS sku with
    | some sid, some sk => some ("store:" ++ sid ++ "|sku:" ++ toLowerS sk)
    | _, _ =>
      match truthyS storeId,
            truthyS (normalizeProductUrlForDedup urlNorm (jsOrS r.url r.link)) with
      | some sid, some u => some ("store:" ++ sid ++ "|url:" ++ u)
      | _, _ => none

/-- Loop of `dedupeDeals` with its `seen` set of keys. -/
def dedupeDealsAux (urlNorm : String → String) (seen : List String) :
    List DealRecord → List DealRecord
  | [] => []
  | r :: rs =>
    match buildStableDedupKey urlNorm r with
    | none => r :: dedupeDealsAux urlNorm seen rs
    | some k =>
      if k ∈ seen then dedupeDealsAux urlNorm seen rs
      else r :: dedupeDealsAux urlNorm (k :: seen) rs

/-- `dedupeDeals` from `scraper_ct.js`: keeps a record when its key is
underivable or not seen yet, in input order. -/
def dedupeDeals (urlNorm : String → String) (records : List DealRecord) :
    List DealRecord :=
  dedupeDealsAux urlNorm [] records

/-- First-occurrence specification of deduplication: keep the head, remove
every later record carrying the same derivable key, recurse; keyless records
are always kept in place. -/
def keepFirstByKey (urlNorm : String → String) : List DealRecord → List DealRecord
  | [] => []
  | r :: rs =>
    match buildStableDedupKey urlNorm r with
    | none => r :: keepFirstByKey urlNorm rs
    | some k =>
      r :: keepFirstByKey urlNorm
        (rs.filter (fun r2 => buildStableDedupKey urlNorm r2 ≠ some k))
termination_by l => l.length
decreasing_by
  · exact Nat.lt_succ_of_le (Nat.le_refl _)
  · exact Nat.lt_succ_of_le (List.length_filter_le _ _)

theorem dedupeDealsAux_cons (u : String → String) (seen : List String)
    (r : DealRecord) (rs : List DealRecord) :
    dedupeDealsAux u seen (r :: rs) =
      match buildStableDedupKey u r with
      | none => r :: dedupeDealsAux u seen rs
      | some k =>
        if k ∈ seen then dedupeDealsAux u seen rs
        else r :: dedupeDealsAux u (k :: seen) rs := rfl

theorem keepFirstByKey_cons (u : String → String) (r : DealRecord) (rs : List DealRecord) :
    keepFirstByKey u (r :: rs) =
      match buildStableDedupKey u r with
      | none => r :: keepFirstByKey u rs
      | some k =>
        r :: keepFirstByKey u
          (rs.filter (fun r2 => buildStableDedupKey u r2 ≠ some k)) := by
  rw [keepFirstByKey]

theorem dedupeDealsAux_sublist (u : String → String) :
    ∀ (rs : List DealRecord) (seen : List String),
      (dedupeDealsAux u seen rs).Sublist rs := by
  intro rs
  induction rs with
  | nil => intro seen; simp [dedupeDealsAux]
  | cons r rs ih =>
    intro seen
    rw [dedupeDealsAux_cons]
    cases hk : buildStableDedupKey u r with
    | none => exact List.Sublist.cons₂ r (ih seen)
    | some k =>
      by_cases hmem : k ∈ seen
      · simp only [if_pos hmem]
        exact List.Sublist.cons r (ih seen)
      · simp only [if_neg hmem]
        exact List.Sublist.cons₂ r (ih (k :: seen))

theorem dedupeDealsAux_count_zero (u : String → String) :
    ∀ (rs : List DealRecord) (seen : List String) (k : String), k ∈ seen →
      ((dedupeDealsAux u seen rs).filter
        (fun r => decide (buildStableDedupKey u r = some k))).length = 0 := by
  intro rs
  induction rs with
  | nil => intro seen k hk; simp [dedupeDealsAux]
  | cons r rs ih =>
    intro seen k hk
    rw [dedupeDealsAux_cons]
    cases hkey : buildStableDedupKey u r with
    | none =>
      rw [List.filter_cons]
      simp only [hkey]
      simp only [reduceCtorEq, decide_False, if_false]
      exact ih seen k hk
    | some k2 =>
      by_cases hmem : k2 ∈ seen
      · simp only [if_pos hmem]
        exact ih seen k hk
      · simp only [if_neg hmem]
        rw [List.filter_cons]
        have hne : k2 ≠ k := fun h => hmem (h ▸ hk)
        simp only [hkey, Option.some.injEq]
        rw [if_neg (by simpa using hne)]
        exact ih (k2 :: seen) k (List.mem_cons_of_mem _ hk)

theorem dedupeDealsAux_count_one (u : String → String) :
    ∀ (rs : List DealRecord) (seen : List String) (k : String), k ∉ seen →
      (∃ r ∈ rs, buildStableDedupKey u r = some k) →
      ((dedupeDealsAux u seen rs).filter
        (fun r => decide (buildStableDedupKey u r = some k))).length = 1 := by
  intro rs
  induction rs with
  | nil =>
    intro seen k hk hex
    obtain ⟨r, hr, -⟩ := hex
    exact absurd hr (by simp)
  | cons r rs ih =>
    intro seen k hk hex
    rw [dedupeDealsAux_cons]
    cases hkey : buildStableDedupKey u r with
    | none =>
      rw [List.filter_cons]
      simp only [hkey, reduceCtorEq, decide_False, if_false]
      refine ih seen k hk ?_
      obtain ⟨r2, hr2, hkey2⟩ := hex
      rcases List.mem_cons.mp hr2 with rfl | hr2
      · exact absurd hkey2 (by simp [hkey])
      · exact ⟨r2, hr2, hkey2⟩
    | some k2 =>
      by_cases heq : k2 = k
      · subst heq
        simp only [if_neg hk]
        rw [List.filter_cons]
        simp only [hkey, decide_True, if_true]
        rw [List.length_cons]
        rw [dedupeDealsAux_count_zero u rs (k2 :: seen) k2 (List.mem_cons_self _ _)]
      · by_cases hmem : k2 ∈ seen
        · simp only [if_pos hmem]
          refine ih seen k hk ?_
          obtain ⟨r2, hr2, hkey2⟩ := hex
          rcases List.mem_cons.mp hr2 with rfl | hr2
          · exact absurd hkey2 (by simp [hkey, heq])
          · exact ⟨r2, hr2, hkey2⟩
        · simp only [if_neg hmem]
          rw [List.filter_cons]
          simp only [hkey, Option.some.injEq]
          rw [if_neg (by simpa using heq)]
          have hk2 : k ∉ k2 :: seen := by
            intro hmem2
            rcases List.mem_cons.mp hmem2 with rfl | hmem2
            · exact heq rfl
            · exact hk hmem2
          refine ih (k2 :: seen) k hk2 ?_
          obtain ⟨r2, hr2, hkey2⟩ := hex
          rcases List.mem_cons.mp hr2 with rfl | hr2
          · exact absurd hkey2 (by simp [hkey, heq])
          · exact ⟨r2, hr2, hkey2⟩

theorem dedupeDealsAux_keyless (u : String → String) :
    ∀ (rs : List DealRecord) (seen : List String),
      (dedupeDealsAux u seen rs).filter
        (fun r => decide (buildStableDedupKey u r = none)) =
      rs.filter (fun r => decide (buildStableDedupKey u r = none)) := by
  intro rs
  induction rs with
  | nil => intro seen; simp [dedupeDealsAux]
  | cons r rs ih =>
    intro seen
    rw [dedupeDealsAux_cons]
    cases hkey : buildStableDedupKey u r with
    | none =>
      rw [List.filter_cons, List.filter_cons]
      simp only [hkey, decide_True, if_true]
      rw [ih seen]
    | some k =>
      by_cases hmem : k ∈ seen
      · simp only [if_pos hmem]
        rw [List.filter_cons]
        simp only [hkey, reduceCtorEq, decide_False, if_false]
        exact ih seen
      · simp only [if_neg hmem]
        rw [List.filter_cons, List.filter_cons]
        simp only [hkey, reduceCtorEq, decide_False, if_false]
        exact ih (k :: seen)

theorem dedupeDealsAux_idem (u : String → String) :
    ∀ (rs : List DealRecord) (seen : List String),
      dedupeDealsAux u seen (dedupeDealsAux u seen rs) = dedupeDealsAux u seen rs := by
  intro rs
  induction rs with
  | nil => intro seen; simp [dedupeDealsAux]
  | cons r rs ih =>
    intro seen
    cases hk : buildStableDedupKey u r with
    | none =>
      simp only [dedupeDealsAux_cons, hk]
      rw [ih seen]
    | some k =>
      by_cases hmem : k ∈ seen
      · simp only [dedupeDealsAux_cons, hk, if_pos hmem]
        exact ih seen
      · simp only [dedupeDealsAux_cons, hk, if_neg hmem]
        rw [ih (k :: seen)]

theorem dedupeDealsAux_eq_keepFirst (u : String → String) :
    ∀ (rs : List DealRecord) (seen : List String),
      dedupeDealsAux u seen rs =
        keepFirstByKey u (rs.filter (fun r =>
          match buildStableDedupKey u r with
          | some k => decide (k ∉ seen)
          | none => true)) := by
  intro rs
  induction rs with
  | nil => intro seen; simp [dedupeDealsAux, keepFirstByKey]
  | cons r rs ih =>
    intro seen
    rw [dedupeDealsAux_cons, List.filter_cons]
    cases hkey : buildStableDedupKey u r with
    | none =>
      simp only [hkey, if_true]
      rw [keepFirstByKey_cons]
      simp only [hkey]
      rw [ih seen]
    | some k =>
      by_cases hmem : k ∈ seen
      · simp only [hkey, if_pos hmem]
        rw [if_neg (show ¬(decide (k ∉ seen) = true) by simpa using hmem)]
        exact ih seen
      · have hdec : decide (k ∉ seen) = true := by simpa using hmem
        simp only [hkey, if_neg hmem, hdec, if_true]
        rw [keepFirstByKey_cons]
        simp only [hkey]
        rw [ih (k :: seen)]
        congr 1
        rw [List.filter_filter]
        refine congrArg (keepFirstByKey u) (List.filter_congr ?_)
        intro a _
        cases hka : buildStableDedupKey u a with
        | none => simp [hka]
        | some ka =>
          by_cases hkak : ka = k
          · simp [hka, hkak]
          · simp [hka, List.mem_cons, not_or, hkak]

/-- C2: deduplication retains exactly one record among those sharing a
derivable dedup key and retains every keyless record; in particular two
records with the same key collapse to one while two keyless records are
both retained. -/
theorem claim_C2_dedup_retention :
    ∀ urlNorm : String → String,
    (∀ (rs : List DealRecord) (k : String),
      (∃ r ∈ rs, buildStableDedupKey urlNorm r = some k) →
      ((dedupeDeals urlNorm rs).filter
        (fun r => decide (buildStableDedupKey urlNorm r = some k))).length = 1) ∧
    (∀ rs : List DealRecord,
      (dedupeDeals urlNorm rs).filter
          (fun r => decide (buildStableDedupKey urlNorm r = none)) =
        rs.filter (fun r => decide (buildStableDedupKey urlNorm r = none))) ∧
    (∀ (r1 r2 : DealRecord) (k : String), buildStableDedupKey urlNorm r1 = some k →
      buildStableDedupKey urlNorm r2 = some k → dedupeDeals urlNorm [r1, r2] = [r1]) ∧
    (∀ r1 r2 : DealRecord, buildStableDedupKey urlNorm r1 = none →
      buildStableDedupKey urlNorm r2 = none →
      dedupeDeals urlNorm [r1, r2] = [r1, r2]) := by
  intro u
  refine ⟨?_, ?_, ?_, ?_⟩
  · intro rs k hex
    exact dedupeDealsAux_count_one u rs [] k (by simp) hex
  · intro rs
    exact dedupeDealsAux_keyless u rs []
  · intro r1 r2 k h1 h2
    simp [dedupeDeals, dedupeDealsAux, h1, h2]
  · intro r1 r2 h1 h2
    simp [dedupeDeals, dedupeDealsAux, h1, h2]

/-- Record whose only content is a product key. -/
def keyedRec : DealRecord :=
  ⟨some "ct:123-4567-8", none, none, none, none, none, none, none, none⟩

/-- Record with no derivable dedup key at all. -/
def keylessRec : DealRecord :=
  ⟨none, none, none, none, none, none, none, none, none⟩

/-- Witness for C2: registering the same keyed record twice keeps exactly
one copy; registering a keyless record twice keeps both. -/
theorem claim_C2_witness :
    dedupeDeals id [keyedRec, keyedRec] = [keyedRec] ∧
    dedupeDeals id [keylessRec, keylessRec] = [keylessRec, keylessRec] :=
  ⟨(claim_C2_dedup_retention id).2.2.1 keyedRec keyedRec "product_key:ct:123-4567-8"
      (by decide) (by decide),
   (claim_C2_dedup_retention id).2.2.2 keylessRec keylessRec (by decide) (by decide)⟩

/-- C10: deduplication preserves input order and keeps first occurrences —
it equals the keep-first specification (for each derivable key exactly the
first carrier appears, keyless records keep their positions), its output is
a subsequence of its input, and it is idempotent. -/
theorem claim_C10_dedup_first_occurrence_idempotent :
    ∀ urlNorm : String → String,
    (∀ rs : List DealRecord, dedupeDeals urlNorm rs = keepFirstByKey urlNorm rs) ∧
    (∀ rs : List DealRecord, (dedupeDeals urlNorm rs).Sublist rs) ∧
    (∀ rs : List DealRecord,
      dedupeDeals urlNorm (dedupeDeals urlNorm rs) = dedupeDeals urlNorm rs) := by
  intro u
  refine ⟨?_, ?_, ?_⟩
  · intro rs
    have h := dedupeDealsAux_eq_keepFirst u rs []
    rw [dedupeDeals, h]
    congr 1
    apply List.filter_eq_self.mpr
    intro a ha
    cases hk : buildStableDedupKey u a <;> simp [hk]
  · intro rs
    exact dedupeDealsAux_sublist u rs []
  · intro rs
    exact dedupeDealsAux_idem u rs []

/-! ### Pagination (scrapeStoreAllPages, scraper_ct.js) -/

/-- Data one call of `extractPage` (`extractProductsOnPage`) yields: the
accepted records, the raw card count and the set of product identifiers of
the page (modelled as a list without duplicates). -/
structure PageData where
  records : List DealRecord
  totalProducts : ℕ
  productKeys : List String
  deriving Repr, DecidableEq

/-- Code-unit comparison of two strings (the default JS `Array.sort`
comparator), on scalar values. -/
def charListLe : List Char → List Char → Bool
  | [], _ => true
  | _ :: _, [] => false
  | a :: as, b :: bs =>
    if a.toNat < b.toNat then true
    else if b.toNat < a.toNat then false
    else charListLe as bs

/-- String-level code-unit order. -/
def strLeJs (a b : String) : Bool :=
  charListLe a.data b.data

/-- Insertion into a sorted list of strings. -/
def insertSortedStr (x : String) : List String → List String
  | [] => [x]
  | y :: ys => if strLeJs x y then x :: y :: ys else y :: insertSortedStr x ys

/-- Sorting in the default JS string order (`Array.prototype.sort`). -/
def sortStringsJs : List String → List String
  | [] => []
  | x :: xs => insertSortedStr x (sortStringsJs xs)

/-- Page signature of `scrapeStoreAllPages`: the lowercased product keys,
sorted and joined with `|`. -/
def pageSignature (pd : PageData) : String :=
  String.intercalate "|" (sortStringsJs (pd.productKeys.map toLowerS))

/-- Result of one store pagination run: accumulated records and the number
of the last page navigated to. -/
structure ScrapeResult where
  items : List DealRecord
  visited : ℕ
  deriving Repr, DecidableEq

/-- Loop body of `scrapeStoreAllPages`.  One fuel unit is one iteration of
`for (pageNum = 1; pageNum <= maxPages; pageNum++)`; `stable` abstracts
`waitProductsStable` and `pages` abstracts `extractPage` per page number.
`hasReachedTimeLimit()` is constantly false (`stopRequested` is never set),
so it does not appear.  Stop conditions in code order: no product on the
page, two consecutive pages with zero extracted records, or a non-empty
signature equal to the previous non-empty signature. -/
def scrapeGo (stable : ℕ → Bool) (pages : ℕ → PageData) :
    ℕ → ℕ → String → ℕ → List DealRecord → ScrapeResult
  | 0, pageNum, _, _, acc => ⟨acc, pageNum - 1⟩
  | fuel + 1, pageNum, prevSig, streak, acc =>
    if stable pageNum = false then ⟨acc, pageNum⟩
    else
      let pd := pages pageNum
      let acc2 := acc ++ pd.records
      let sig := pageSignature pd
      let streak2 := if pd.records.isEmpty then streak + 1 else 0
      let stop : Bool :=
        decide (pd.totalProducts = 0) ||
        (pd.records.isEmpty && decide (streak2 ≥ 2)) ||
        (decide (prevSig ≠ "") && decide (sig ≠ "") && decide (sig = prevSig))
      let prevSig2 := if sig = "" then prevSig else sig
      if stop then ⟨acc2, pageNum⟩
      else scrapeGo stable pages fuel (pageNum + 1) prevSig2 streak2 acc2

/-- `scrapeStoreAllPages` from `scraper_ct.js`:
`maxPages = Math.max(1, Number(args.maxPages) || 50)` pages at most,
starting at page 1 with no previous signature and an empty streak. -/
def scrapeStoreAllPages (maxPages : ℕ) (stable : ℕ → Bool) (pages : ℕ → PageData) :
    ScrapeResult :=
  scrapeGo stable pages (max 1 maxPages) 1 "" 0 []

/-- Records of `d` consecutive pages starting at page `start`. -/
def concatFrom (pages : ℕ → PageData) (start : ℕ) : ℕ → List DealRecord
  | 0 => []
  | d + 1 => (pages start).records ++ concatFrom pages (start + 1) d

/-- Per-deal filter of the store run (`(x.discount_percent ?? 0) >= 50`). -/
def dealFilter (r : DealRecord) : Bool :=
  decide (50 ≤ r.discount_percent.getD 0)

/-- `registerRecord` of `scrapeStore`, folded over a list: reject a record
whose key was seen, remember the key, push the record. -/
def registerAll (urlNorm : String → String) (seen : List String) :
    List DealRecord → List DealRecord
  | [] => []
  | r :: rs =>
    match buildStableDedupKey urlNorm r with
    | none => r :: registerAll urlNorm seen rs
    | some k =>
      if k ∈ seen then registerAll urlNorm seen rs
      else r :: registerAll urlNorm (k :: seen) rs

/-- Tail of `scrapeStore` after pagination: keep the deals at or above 50%,
deduplicate them, then accumulate them through `registerRecord` into
`allDeals` (the list the run writes out, up to the image-url fill-in of
fields this model does not carry). -/
def storeRunDeals (urlNorm : String → String) (m : ℕ) (stable : ℕ → Bool)
    (pages : ℕ → PageData) : List DealRecord :=
  registerAll urlNorm []
    (dedupeDeals urlNorm
      ((scrapeStoreAllPages m stable pages).items.filter dealFilter))

theorem scrapeGo_succ (stable : ℕ → Bool) (pages : ℕ → PageData) (fuel pageNum : ℕ)
    (prevSig : String) (streak : ℕ) (acc : List DealRecord) :
    scrapeGo stable pages (fuel + 1) pageNum prevSig streak acc =
      if stable pageNum = false then ⟨acc, pageNum⟩
      else
        let pd := pages pageNum
        let acc2 := acc ++ pd.records
        let sig := pageSignature pd
        let streak2 := if pd.records.isEmpty then streak + 1 else 0
        let stop : Bool :=
          decide (pd.totalProducts = 0) ||
          (pd.records.isEmpty && decide (streak2 ≥ 2)) ||
          (decide (prevSig ≠ "") && decide (sig ≠ "") && decide (sig = prevSig))
        let prevSig2 := if sig = "" then prevSig else sig
        if stop then ⟨acc2, pageNum⟩
        else scrapeGo stable pages fuel (pageNum + 1) prevSig2 streak2 acc2 := rfl

theorem scrapeGo_visited_le (stable : ℕ → Bool) (pages : ℕ → PageData) :
    ∀ (fuel pageNum : ℕ) (prevSig : String) (streak : ℕ) (acc : List DealRecord),
      (scrapeGo stable pages fuel pageNum prevSig streak acc).visited ≤
        pageNum + fuel - 1 := by
  intro fuel
  induction fuel with
  | zero =>
    intro pageNum prevSig streak acc
    simp [scrapeGo]
  | succ fuel ih =>
    intro pageNum prevSig streak acc
    rw [scrapeGo_succ]
    by_cases hs : stable pageNum = false
    · rw [if_pos hs]
      show pageNum ≤ pageNum + (fuel + 1) - 1
      omega
    · rw [if_neg hs]
      simp only []
      split
      · split
        · show pageNum ≤ pageNum + (fuel + 1) - 1
          omega
        · refine (ih _ _ _ _).trans ?_
          omega
      · split
        · show pageNum ≤ pageNum + (fuel + 1) - 1
          omega
        · refine (ih _ _ _ _).trans ?_
          omega

/-- Endlessly growing mock listing: page `n` shows one record and a product
key never seen before. -/
def growingPages (n : ℕ) : PageData :=
  ⟨[keylessRec], 1, [String.mk (List.replicate n 'a')]⟩

/-- C3: for every configured number of pages `m ≥ 1` the pagination loop of
`scrapeStoreAllPages` navigates to at most `m` pages (and terminates), even
against a listing producing new content forever; with `maxPages = 5` and the
growing mock listing it stops exactly at page 5. -/
theorem claim_C3_pagination_bounded :
    (∀ (m : ℕ) (stable : ℕ → Bool) (pages : ℕ → PageData), 1 ≤ m →
      (scrapeStoreAllPages m stable pages).visited ≤ m) ∧
    (scrapeStoreAllPages 5 (fun _ => true) growingPages).visited = 5 := by
  constructor
  · intro m stable pages hm
    have h := scrapeGo_visited_le stable pages (max 1 m) 1 "" 0 []
    rw [scrapeStoreAllPages]
    omega
  · rfl

/-- Witness for C3: the bound applied at `maxPages = 5` against the growing
listing. -/
theorem claim_C3_witness :
    (scrapeStoreAllPages 5 (fun _ => true) growingPages).visited ≤ 5 :=
  claim_C3_pagination_bounded.1 5 (fun _ => true) growingPages (by norm_num)

theorem list_isEmpty_false {α : Type} (l : List α) (h : l ≠ []) : l.isEmpty = false := by
  cases l with
  | nil => exact absurd rfl h
  | cons a l => rfl

theorem scrapeGo_sig_stop (stable : ℕ → Bool) (pages : ℕ → PageData) (k : ℕ)
    (hk : 1 ≤ k)
    (H1 : ∀ j, 1 ≤ j → j ≤ k + 1 → stable j = true)
    (H2 : ∀ j, 1 ≤ j → j ≤ k + 1 → (pages j).totalProducts ≠ 0)
    (H3 : ∀ j, 1 ≤ j → j ≤ k + 1 → (pages j).records ≠ [])
    (H4 : ∀ j, 1 ≤ j → j ≤ k + 1 → pageSignature (pages j) ≠ "")
    (H5 : ∀ j, 2 ≤ j → j ≤ k → pageSignature (pages j) ≠ pageSignature (pages (j - 1)))
    (H6 : pageSignature (pages (k + 1)) = pageSignature (pages k)) :
    ∀ (d fuel pageNum : ℕ) (prevSig : String) (acc : List DealRecord),
      pageNum + d = k + 1 → d + 1 ≤ fuel →
      ((pageNum = 1 ∧ prevSig = "") ∨
        (2 ≤ pageNum ∧ prevSig = pageSignature (pages (pageNum - 1)))) →
      scrapeGo stable pages fuel pageNum prevSig 0 acc =
        ⟨acc ++ concatFrom pages pageNum (d + 1), k + 1⟩ := by
  intro d
  induction d with
  | zero =>
    intro fuel pageNum prevSig acc hpn hfuel hinv
    obtain rfl : pageNum = k + 1 := by omega
    rcases hinv with ⟨h1, -⟩ | ⟨-, hprev⟩
    · omega
    have hprev2 : prevSig = pageSignature (pages k) := by simpa using hprev
    have hieK : (pages (k + 1)).records.isEmpty = false :=
      list_isEmpty_false _ (H3 (k + 1) (by omega) (by omega))
    have htotK : (pages (k + 1)).totalProducts ≠ 0 := H2 (k + 1) (by omega) (by omega)
    have hs1 : pageSignature (pages (k + 1)) ≠ "" := H4 (k + 1) (by omega) (by omega)
    have hsk : prevSig ≠ "" := by
      rw [hprev2]
      exact H4 k (by omega) (by omega)
    cases fuel with
    | zero => omega
    | succ f =>
      rw [scrapeGo_succ]
      rw [if_neg (by simp [H1 (k + 1) (by omega) (by omega)])]
      simp only [hieK, reduceCtorEq, if_false, Bool.false_and, Bool.false_or]
      split
      · simp [concatFrom]
      · rename_i hstop
        exfalso
        apply hstop
        simp [htotK, hs1, hprev2, H6, H4 k (by omega) (by omega)]
  | succ d ih =>
    intro fuel pageNum prevSig acc hpn hfuel hinv
    have hpn1 : 1 ≤ pageNum := by rcases hinv with ⟨h, -⟩ | ⟨h, -⟩ <;> omega
    have hple : pageNum ≤ k := by omega
    have hrec : (pages pageNum).records ≠ [] := H3 pageNum hpn1 (by omega)
    have hie : (pages pageNum).records.isEmpty = false := list_isEmpty_false _ hrec
    have htot : (pages pageNum).totalProducts ≠ 0 := H2 pageNum hpn1 (by omega)
    have hsig : pageSignature (pages pageNum) ≠ "" := H4 pageNum hpn1 (by omega)
    cases fuel with
    | zero => omega
    | succ f =>
      rw [scrapeGo_succ]
      rw [if_neg (by simp [H1 pageNum hpn1 (by omega)])]
      simp only [hie, reduceCtorEq, if_false, Bool.false_and, Bool.false_or]
      split
      · rename_i hstop
        exfalso
        rcases hinv with ⟨-, hprev⟩ | ⟨h2, hprev⟩
        · simp [htot, hprev] at hstop
        · have hneq : pageSignature (pages pageNum) ≠ prevSig := by
            rw [hprev]
            exact H5 pageNum h2 hple
          simp [htot, hneq] at hstop
      · have hrecur := ih f (pageNum + 1) (pageSignature (pages pageNum))
          (acc ++ (pages pageNum).records) (by omega) (by omega)
          (Or.inr ⟨by omega, by simp⟩)
        rw [hrecur, List.append_assoc]
        rfl

theorem registerAll_eq_dedupeAux (u : String → String) :
    ∀ (rs : List DealRecord) (seen : List String),
      registerAll u seen rs = dedupeDealsAux u seen rs := by
  intro rs
  induction rs with
  | nil => intro seen; rfl
  | cons r rs ih =>
    intro seen
    rw [registerAll, dedupeDealsAux_cons]
    cases hk : buildStableDedupKey u r with
    | none => simp only [ih]
    | some k =>
      by_cases hmem : k ∈ seen
      · simp only [if_pos hmem, ih]
      · simp only [if_neg hmem, ih]

theorem concatFrom_filter (pages : ℕ → PageData) (f : DealRecord → Bool) :
    ∀ (d start : ℕ),
      (∀ j, start ≤ j → j < start + d → ∀ r ∈ (pages j).records, f r = true) →
      (concatFrom pages start d).filter f = concatFrom pages start d := by
  intro d
  induction d with
  | zero => intro start h; rfl
  | succ d ih =>
    intro start h
    rw [concatFrom, List.filter_append]
    rw [List.filter_eq_self.mpr (h start (Nat.le_refl _) (by omega))]
    rw [ih (start + 1) (fun j h1 h2 => h j (by omega) (by omega))]

/-- C7 (amended): in a store run that reaches page k+1 — pages 1..k+1
stable, showing products, yielding records, each with a non-empty dedup-key
signature, no two consecutive signatures equal before page k+1 — if page
(k+1)'s signature equals page k's, the loop stops after page k+1 (no later
page is navigated), the accumulated items are exactly the records of pages
1 through k+1 and, the accumulated records all passing the 50% filter, the
store run returns their deduplicated union. -/
theorem claim_C7_signature_stop :
    ∀ (urlNorm : String → String) (m : ℕ) (stable : ℕ → Bool) (pages : ℕ → PageData)
      (k : ℕ), 1 ≤ k → k + 1 ≤ m →
      (∀ j, 1 ≤ j → j ≤ k + 1 → stable j = true) →
      (∀ j, 1 ≤ j → j ≤ k + 1 → (pages j).totalProducts ≠ 0) →
      (∀ j, 1 ≤ j → j ≤ k + 1 → (pages j).records ≠ []) →
      (∀ j, 1 ≤ j → j ≤ k + 1 → pageSignature (pages j) ≠ "") →
      (∀ j, 2 ≤ j → j ≤ k → pageSignature (pages j) ≠ pageSignature (pages (j - 1))) →
      pageSignature (pages (k + 1)) = pageSignature (pages k) →
      (scrapeStoreAllPages m stable pages).visited = k + 1 ∧
      (scrapeStoreAllPages m stable pages).items = concatFrom pages 1 (k + 1) ∧
      ((∀ j, 1 ≤ j → j ≤ k + 1 → ∀ r ∈ (pages j).records, dealFilter r = true) →
        storeRunDeals urlNorm m stable pages =
          dedupeDeals urlNorm (concatFrom pages 1 (k + 1))) := by
  intro u m stable pages k hk hm H1 H2 H3 H4 H5 H6
  have hrun := scrapeGo_sig_stop stable pages k hk H1 H2 H3 H4 H5 H6 k (max 1 m) 1 "" []
    (by omega) (by omega) (Or.inl ⟨rfl, rfl⟩)
  have hres : scrapeStoreAllPages m stable pages =
      ⟨concatFrom pages 1 (k + 1), k + 1⟩ := by
    rw [scrapeStoreAllPages]
    simpa using hrun
  refine ⟨by rw [hres], by rw [hres], ?_⟩
  intro hf
  rw [storeRunDeals, hres]
  simp only []
  rw [concatFrom_filter pages dealFilter (k + 1) 1
    (fun j h1 h2 => hf j h1 (by omega))]
  rw [registerAll_eq_dedupeAux]
  exact dedupeDealsAux_idem u _ []

/-- Pages that show one keyless record each and expose no product key: the
dedup-key signature of every page is the empty string. -/
def noKeyPages : ℕ → PageData :=
  fun _ => ⟨[keylessRec], 1, []⟩

/-- C7 counterexample: with three stable, non-empty pages exposing no
product keys, page 2's signature equals page 1's (both empty), yet the loop
does not stop after page 2 — it navigates to page 3 (the signature-stop of
the code fires only on non-empty signatures). -/
theorem claim_C7_counterexample :
    pageSignature (noKeyPages 2) = pageSignature (noKeyPages 1) ∧
    (noKeyPages 1).totalProducts ≠ 0 ∧
    (noKeyPages 1).records ≠ [] ∧
    (scrapeStoreAllPages 3 (fun _ => true) noKeyPages).visited = 3 := by
  refine ⟨rfl, by decide, by decide, rfl⟩

/-- Deal above threshold with product key `ct:100-0000-1`. -/
def sigDealA : DealRecord :=
  ⟨some "ct:100-0000-1", none, none, none, none, none, none, none, some 60⟩

/-- Deal above threshold with product key `ct:100-0000-2`. -/
def sigDealB : DealRecord :=
  ⟨some "ct:100-0000-2", none, none, none, none, none, none, none, some 60⟩

/-- Deal above threshold with product key `ct:100-0000-3`. -/
def sigDealC : DealRecord :=
  ⟨some "ct:100-0000-3", none, none, none, none, none, none, none, some 60⟩

/-- Mock 3-page store where page 2 repeats page 1's product keys. -/
def threePages : ℕ → PageData :=
  fun n =>
    if n = 1 then ⟨[sigDealA], 1, ["K1"]⟩
    else if n = 2 then ⟨[sigDealB], 1, ["K1"]⟩
    else ⟨[sigDealC], 1, ["K3"]⟩

/-- Witness for C7: the 3-page store whose page 2 signature equals page 1's
stops after page 2, never navigates to page 3, and the run returns the
deduplicated records of pages 1 and 2. -/
theorem claim_C7_witness :
    (scrapeStoreAllPages 3 (fun _ => true) threePages).visited = 2 ∧
    (scrapeStoreAllPages 3 (fun _ => true) threePages).items = concatFrom threePages 1 2 ∧
    storeRunDeals id 3 (fun _ => true) threePages =
      dedupeDeals id (concatFrom threePages 1 2) := by
  have h := claim_C7_signature_stop id 3 (fun _ => true) threePages 1 (by norm_num)
    (by norm_num)
    (by intro j h1 h2; rfl)
    (by intro j h1 h2; interval_cases j <;> decide)
    (by intro j h1 h2; interval_cases j <;> decide)
    (by intro j h1 h2; interval_cases j <;> decide)
    (by intro j h1 h2; omega)
    (by decide)
  refine ⟨h.1, h.2.1, h.2.2 ?_⟩
  intro j h1 h2 r hr
  interval_cases j <;> simp [threePages] at hr <;> subst hr <;>
    simp [dealFilter, sigDealA, sigDealB] <;> norm_num

/-! ### waitForRealCards (canadian_tire_scraper.mjs) -/

/-- Poll `i` reaches the real-card threshold (`realCards >= minRealCards`).
An observation is the pair (cardsDetected, realCards) the page evaluation
returns at that poll. -/
def wfrcSuccess (minRealCards : ℕ) (obs : ℕ → ℕ × ℕ) (i : ℕ) : Prop :=
  minRealCards ≤ (obs i).2

/-- Poll `i` sees placeholder markup (`cardsDetected <= 2 && realCards === 0`). -/
def wfrcPlaceholder (obs : ℕ → ℕ × ℕ) (i : ℕ) : Prop :=
  (obs i).1 ≤ 2 ∧ (obs i).2 = 0

/-- Loop of `waitForRealCards`: `fuel` bounds the number of polls (the
`Date.now() - start < timeout` budget — each iteration spends time), `i`
indexes the poll, `reloaded` is `placeholderReloaded`, `count` counts
executed reloads.  Returns the boolean result and the reload count. -/
def wfrcGo (minRealCards : ℕ) (obs : ℕ → ℕ × ℕ) :
    ℕ → ℕ → Bool → ℕ → Bool × ℕ
  | 0, _, _, count => (false, count)
  | fuel + 1, i, reloaded, count =>
    if minRealCards ≤ (obs i).2 then (true, count)
    else if (obs i).1 ≤ 2 ∧ (obs i).2 = 0 then
      if reloaded then (false, count)
      else wfrcGo minRealCards obs fuel (i + 1) true (count + 1)
    else wfrcGo minRealCards obs fuel (i + 1) reloaded count

/-- `waitForRealCards` from `canadian_tire_scraper.mjs` over an observation
trace, starting with no reload done. -/
def waitForRealCards (minRealCards : ℕ) (obs : ℕ → ℕ × ℕ) (fuel : ℕ) : Bool × ℕ :=
  wfrcGo minRealCards obs fuel 0 false 0

theorem wfrcGo_reloads_le (minRealCards : ℕ) (obs : ℕ → ℕ × ℕ) :
    ∀ (fuel i : ℕ) (reloaded : Bool) (count : ℕ),
      (wfrcGo minRealCards obs fuel i reloaded count).2 ≤
        count + (if reloaded then 0 else 1) := by
  intro fuel
  induction fuel with
  | zero =>
    intro i reloaded count
    simp [wfrcGo]
  | succ fuel ih =>
    intro i reloaded count
    rw [wfrcGo]
    split
    · simp
    · split
      · cases reloaded with
        | true => simp
        | false =>
          simp only [Bool.false_eq_true, if_false]
          refine (ih (i + 1) true (count + 1)).trans ?_
          simp
      · refine (ih (i + 1) reloaded count).trans (Nat.le_refl _)

theorem wfrcGo_skip (minRealCards : ℕ) (obs : ℕ → ℕ × ℕ) :
    ∀ (n start fuel : ℕ) (reloaded : Bool) (count : ℕ),
      (∀ j, start ≤ j → j < start + n →
        ¬wfrcSuccess minRealCards obs j ∧ ¬wfrcPlaceholder obs j) →
      n ≤ fuel →
      wfrcGo minRealCards obs fuel start reloaded count =
        wfrcGo minRealCards obs (fuel - n) (start + n) reloaded count := by
  intro n
  induction n with
  | zero => intro start fuel reloaded count h hf; simp
  | succ n ih =>
    intro start fuel reloaded count h hf
    obtain ⟨hns, hnp⟩ := h start (Nat.le_refl _) (by omega)
    cases fuel with
    | zero => omega
    | succ fuel =>
      rw [wfrcGo]
      rw [if_neg (show ¬minRealCards ≤ (obs start).2 from hns),
        if_neg (show ¬((obs start).1 ≤ 2 ∧ (obs start).2 = 0) from hnp)]
      have := ih (start + 1) fuel reloaded count
        (fun j h1 h2 => h j (by omega) (by omega)) (by omega)
      rw [this]
      have e1 : fuel - n = fuel + 1 - (n + 1) := by omega
      have e2 : start + 1 + n = start + (n + 1) := by omega
      rw [e1, e2]

/-- C8: in one call of `waitForRealCards` at most one reload ever happens;
the first placeholder detection (no earlier poll decisive) performs exactly
one reload and re-polls from the next observation with the reload flag set;
a subsequent placeholder detection returns false without reloading again;
and the call returns true as soon as a poll reaches `minRealCards` real
cards (with no reload when no placeholder was seen before, with the single
reload otherwise). -/
theorem claim_C8_single_reload :
    ∀ (minRealCards : ℕ) (obs : ℕ → ℕ × ℕ),
    (∀ fuel, (waitForRealCards minRealCards obs fuel).2 ≤ 1) ∧
    (∀ i fuel,
      (∀ j, j < i → ¬wfrcSuccess minRealCards obs j ∧ ¬wfrcPlaceholder obs j) →
      ¬wfrcSuccess minRealCards obs i → wfrcPlaceholder obs i → i + 1 ≤ fuel →
      waitForRealCards minRealCards obs fuel =
        wfrcGo minRealCards obs (fuel - (i + 1)) (i + 1) true 1) ∧
    (∀ i i2 fuel,
      (∀ j, j < i → ¬wfrcSuccess minRealCards obs j ∧ ¬wfrcPlaceholder obs j) →
      ¬wfrcSuccess minRealCards obs i → wfrcPlaceholder obs i →
      (∀ j, i < j → j < i2 → ¬wfrcSuccess minRealCards obs j ∧ ¬wfrcPlaceholder obs j) →
      ¬wfrcSuccess minRealCards obs i2 → wfrcPlaceholder obs i2 →
      i < i2 → i2 + 1 ≤ fuel →
      waitForRealCards minRealCards obs fuel = (false, 1)) ∧
    (∀ i fuel,
      (∀ j, j < i → ¬wfrcSuccess minRealCards obs j ∧ ¬wfrcPlaceholder obs j) →
      wfrcSuccess minRealCards obs i → i + 1 ≤ fuel →
      waitForRealCards minRealCards obs fuel = (true, 0)) ∧
    (∀ i i2 fuel,
      (∀ j, j < i → ¬wfrcSuccess minRealCards obs j ∧ ¬wfrcPlaceholder obs j) →
      ¬wfrcSuccess minRealCards obs i → wfrcPlaceholder obs i →
      (∀ j, i < j → j < i2 → ¬wfrcSuccess minRealCards obs j ∧ ¬wfrcPlaceholder obs j) →
      wfrcSuccess minRealCards obs i2 → i < i2 → i2 + 1 ≤ fuel →
      waitForRealCards minRealCards obs fuel = (true, 1)) := by
  intro minRealCards obs
  have key2 : ∀ i fuel,
      (∀ j, j < i → ¬wfrcSuccess minRealCards obs j ∧ ¬wfrcPlaceholder obs j) →
      ¬wfrcSuccess minRealCards obs i → wfrcPlaceholder obs i → i + 1 ≤ fuel →
      waitForRealCards minRealCards obs fuel =
        wfrcGo minRealCards obs (fuel - (i + 1)) (i + 1) true 1 := by
    intro i fuel hpre hns hp hf
    rw [waitForRealCards]
    rw [wfrcGo_skip minRealCards obs i 0 fuel false 0
      (fun j h1 h2 => hpre j (by omega)) (by omega)]
    have hz : 0 + i = i := by omega
    rw [hz]
    have hfi : fuel - i = (fuel - (i + 1)) + 1 := by omega
    rw [hfi, wfrcGo]
    rw [if_neg (show ¬minRealCards ≤ (obs i).2 from hns),
      if_pos (show (obs i).1 ≤ 2 ∧ (obs i).2 = 0 from hp)]
    simp
  refine ⟨?_, key2, ?_, ?_, ?_⟩
  · intro fuel
    have h := wfrcGo_reloads_le minRealCards obs fuel 0 false 0
    simpa using h
  · intro i i2 fuel hpre hnsi hpi hmid hnsi2 hpi2 hlt hf
    rw [key2 i fuel hpre hnsi hpi (by omega)]
    rw [wfrcGo_skip minRealCards obs (i2 - (i + 1)) (i + 1) (fuel - (i + 1)) true 1
      (fun j h1 h2 => hmid j (by omega) (by omega)) (by omega)]
    have e1 : i + 1 + (i2 - (i + 1)) = i2 := by omega
    have e2 : fuel - (i + 1) - (i2 - (i + 1)) = fuel - i2 := by omega
    rw [e1, e2]
    have hfi : fuel - i2 = (fuel - (i2 + 1)) + 1 := by omega
    rw [hfi, wfrcGo]
    rw [if_neg (show ¬minRealCards ≤ (obs i2).2 from hnsi2),
      if_pos (show (obs i2).1 ≤ 2 ∧ (obs i2).2 = 0 from hpi2)]
    simp
  · intro i fuel hpre hs hf
    rw [waitForRealCards]
    rw [wfrcGo_skip minRealCards obs i 0 fuel false 0
      (fun j h1 h2 => hpre j (by omega)) (by omega)]
    have hz : 0 + i = i := by omega
    rw [hz]
    have hfi : fuel - i = (fuel - (i + 1)) + 1 := by omega
    rw [hfi, wfrcGo]
    rw [if_pos (show minRealCards ≤ (obs i).2 from hs)]
  · intro i i2 fuel hpre hnsi hpi hmid hs2 hlt hf
    rw [key2 i fuel hpre hnsi hpi (by omega)]
    rw [wfrcGo_skip minRealCards obs (i2 - (i + 1)) (i + 1) (fuel - (i + 1)) true 1
      (fun j h1 h2 => hmid j (by omega) (by omega)) (by omega)]
    have e1 : i + 1 + (i2 - (i + 1)) = i2 := by omega
    have e2 : fuel - (i + 1) - (i2 - (i + 1)) = fuel - i2 := by omega
    rw [e1, e2]
    have hfi : fuel - i2 = (fuel - (i2 + 1)) + 1 := by omega
    rw [hfi, wfrcGo]
    rw [if_pos (show minRealCards ≤ (obs i2).2 from hs2)]

/-- Observation trace showing placeholder markup twice, then real cards. -/
def wfrcObs : ℕ → ℕ × ℕ :=
  fun j => if j ≤ 1 then (2, 0) else (10, 10)

/-- Witness for C8: against a trace with persistent placeholder markup
(polls 0 and 1), the call reloads once, returns false and performed exactly
one reload. -/
theorem claim_C8_witness :
    waitForRealCards 5 wfrcObs 10 = (false, 1) ∧
    (waitForRealCards 5 wfrcObs 10).2 ≤ 1 :=
  ⟨(claim_C8_single_reload 5 wfrcObs).2.2.1 0 1 10
      (fun j h => absurd h (by omega))
      (by norm_num [wfrcSuccess, wfrcObs]) (by norm_num [wfrcPlaceholder, wfrcObs])
      (fun j h1 h2 => absurd h1 (by omega))
      (by norm_num [wfrcSuccess, wfrcObs]) (by norm_num [wfrcPlaceholder, wfrcObs])
      (by omega) (by omega),
   (claim_C8_single_reload 5 wfrcObs).1 10⟩

/-! ### Shard selection (scraper_ct.js, module top) -/

/-- Shard slice selection of the store list.  `shardIndex`/`totalShards`
model the `parseInt` results of `SHARD_INDEX`/`TOTAL_SHARDS`: `none` is a
NaN parse (`Number.isFinite` false), an absent variable parses as the
finite default 0.  A non-finite value or `totalShards <= 0` disables
sharding.  Otherwise `maxPerShard = ceil(length / totalShards)` capped at
8 is the per-shard size, the 1-based index is clamped to 0-based, and
`slice(start, end)` takes the contiguous block. -/
def selectShard {α : Type} (stores : List α) (shardIndex totalShards : Option Int) :
    List α :=
  match shardIndex, totalShards with
  | some si, some ts =>
    if ts ≤ 0 then stores
    else
      let n := stores.length
      let maxPerShard := (n + ts.toNat - 1) / ts.toNat
      let storesPerShard := min maxPerShard 8
      let start := (max 0 (si - 1)).toNat * storesPerShard
      let stop := min (start + storesPerShard) n
      (stores.take stop).drop start
  | _, _ => stores

theorem take_min_drop {α : Type} (l : List α) (s k : ℕ) :
    (l.take (min (s + k) l.length)).drop s = (l.drop s).take k := by
  have h1 : l.take (min (s + k) l.length) = l.take (s + k) := by
    rcases Nat.le_total (s + k) l.length with h | h
    · rw [Nat.min_eq_left h]
    · rw [Nat.min_eq_right h, List.take_length, List.take_of_length_le h]
  rw [h1, List.drop_take]
  congr 1
  omega

/-- C9: with valid shard values (1-based index, positive total) the selected
shard is the contiguous slice of the store list starting at
`(shardIndex - 1) * storesPerShard` with at most `storesPerShard` stores,
where `storesPerShard = min(ceil(length / totalShards), 8)`; with invalid
or absent values (either parse non-finite, or the total not positive) the
entire store list is processed. -/
theorem claim_C9_shard_selection :
    ∀ (α : Type) (stores : List α) (si ts : Int),
    (∀ siOpt : Option Int, selectShard stores siOpt none = stores) ∧
    (∀ tsOpt : Option Int, selectShard stores none tsOpt = stores) ∧
    (ts ≤ 0 → selectShard stores (some si) (some ts) = stores) ∧
    (1 ≤ si → 0 < ts →
      selectShard stores (some si) (some ts) =
        (stores.drop
          ((si - 1).toNat * min ((stores.length + ts.toNat - 1) / ts.toNat) 8)).take
          (min ((stores.length + ts.toNat - 1) / ts.toNat) 8) ∧
      (selectShard stores (some si) (some ts)).length ≤
        min ((stores.length + ts.toNat - 1) / ts.toNat) 8) := by
  intro α stores si ts
  refine ⟨?_, ?_, ?_, ?_⟩
  · intro siOpt
    cases siOpt <;> rfl
  · intro tsOpt
    rfl
  · intro hts
    rw [selectShard, if_pos hts]
  · intro hsi hts
    have hmax : max 0 (si - 1) = si - 1 := by omega
    have hsel : selectShard stores (some si) (some ts) =
        (stores.drop
          ((si - 1).toNat * min ((stores.length + ts.toNat - 1) / ts.toNat) 8)).take
          (min ((stores.length + ts.toNat - 1) / ts.toNat) 8) := by
      rw [selectShard, if_neg (by omega)]
      simp only [hmax]
      exact take_min_drop stores _ _
    refine ⟨hsel, ?_⟩
    rw [hsel]
    simp [List.length_take]

/-- Witness for C9: ten stores split over 3 shards — shard 2 holds stores
4 to 7 (0-based indices), and invalid totals keep the whole list. -/
theorem claim_C9_witness :
    selectShard [0, 1, 2, 3, 4, 5, 6, 7, 8, 9] (some 2) (some 3) =
      ([0, 1, 2, 3, 4, 5, 6, 7, 8, 9].drop 4).take 4 ∧
    selectShard [0, 1, 2, 3, 4, 5, 6, 7, 8, 9] (some 2) (some 0) =
      [0, 1, 2, 3, 4, 5, 6, 7, 8, 9] := by
  constructor
  · have h := (claim_C9_shard_selection ℕ [0, 1, 2, 3, 4, 5, 6, 7, 8, 9] 2 3).2.2.2
      (by norm_num) (by norm_num)
    have hsz : min ((([0, 1, 2, 3, 4, 5, 6, 7, 8, 9] : List ℕ).length + (3 : ℤ).toNat - 1)
        / (3 : ℤ).toNat) 8 = 4 := by decide
    exact hsz ▸ h.1
  · exact (claim_C9_shard_selection ℕ [0, 1, 2, 3, 4, 5, 6, 7, 8, 9] 2 0).2.2.1 (by norm_num)

end CTScraper
